import Mathlib

/-!
Shallow embedding of `scripts/mongo_x_neo4j/neo4j_relationalizer.py`:
free-text ingredient parsing, normalization, keyword-to-allergen matching,
dietary-conflict matching, explicit-tag reconciliation with proxy synthesis,
and TSV node/relationship row emission with the run-wide dedup ledger.

Strings are modelled as `List Char` (`Str` below).  Python sets that the
script iterates over are modelled as duplicate-free lists in first-insertion
order; every property proved below is insensitive to iteration order.
-/

abbrev Str := List Char

/-- ASCII word character, Python regex `\w`.  The strings this development
feeds to the matchers are ASCII, because they are produced downstream of
`unidecode`. -/
def isWordChar (c : Char) : Bool :=
  (97 ≤ c.toNat && c.toNat ≤ 122) || (65 ≤ c.toNat && c.toNat ≤ 90)
    || (48 ≤ c.toNat && c.toNat ≤ 57) || c.toNat == 95

/-- Python regex `\s` / `str.strip` whitespace, ASCII range:
space, tab, newline, vertical tab, form feed, carriage return. -/
def isPySpace (c : Char) : Bool :=
  c.toNat == 32 || c.toNat == 9 || c.toNat == 10
    || c.toNat == 11 || c.toNat == 12 || c.toNat == 13

def isDigit (c : Char) : Bool := 48 ≤ c.toNat && c.toNat ≤ 57

/-- Python `str.lower`, restricted to the ASCII letters; the non-ASCII
characters used in this development have no lowercase form, so they are
left unchanged, as `str.lower` leaves them. -/
def lowerChar (c : Char) : Char :=
  if 65 ≤ c.toNat ∧ c.toNat ≤ 90 then Char.ofNat (c.toNat + 32) else c

/-- Model of `unidecode.unidecode`, character-wise.  The library passes
code points below 0x80 through unchanged.  The single non-ASCII character
exercised in this development, U+5317 `北`, transliterates to `"Bei "`
(this is the library documentation's own example: `unidecode("北亰")`
is `"Bei Jing "`).  Every other non-ASCII character is mapped to the
empty string, as the library does for untransliteratable characters. -/
def unidecodeChar (c : Char) : Str :=
  if c.toNat ≤ 127 then [c]
  else if c = '北' then "Bei ".toList
  else []

def unidecodeStr (l : Str) : Str := l.flatMap unidecodeChar

/-- Whether a `)` or `]` occurs ahead of the current position before any
newline, i.e. whether `.*?[\)\]]` (no DOTALL) can match from here. -/
def hasCloser : Str → Bool
  | [] => false
  | c :: rest =>
    if c = '\n' then false
    else if c = ')' ∨ c = ']' then true
    else hasCloser rest

/-- Worker for `re.sub(r'[\(\[].*?[\)\]]', '', name)`.  In skipping mode the
characters of a matched span are dropped up to its nearest closer; an
opening bracket enters skipping mode only when a closer is reachable
(otherwise the regex cannot match at it and the opener is kept). -/
def removeBracketsAux : Bool → Str → Str
  | _, [] => []
  | true, c :: rest =>
    if c = ')' ∨ c = ']' then removeBracketsAux false rest
    else removeBracketsAux true rest
  | false, c :: rest =>
    if (c = '(' ∨ c = '[') ∧ hasCloser rest then removeBracketsAux true rest
    else c :: removeBracketsAux false rest

/-- `re.sub(r'[\(\[].*?[\)\]]', '', name)`: drop every span from an opening
`(`/`[` to the nearest following `)`/`]` (`.*?` cannot cross a newline). -/
def removeBrackets (l : Str) : Str := removeBracketsAux false l

/-- Characters kept by `re.sub(r'[^\w\s-]', '', name)`. -/
def keepChar (c : Char) : Bool := isWordChar c || isPySpace c || c == '-'

/-- Worker for `re.sub(r'\s+', ' ', name)`: the flag records whether the
previous character was whitespace (so a whitespace run emits one space). -/
def collapseAux : Bool → Str → Str
  | _, [] => []
  | prevWs, c :: rest =>
    if isPySpace c then
      if prevWs then collapseAux true rest else ' ' :: collapseAux true rest
    else c :: collapseAux false rest

def collapseWs (l : Str) : Str := collapseAux false l

/-- Drop a trailing whitespace run (the right half of `str.strip`). -/
def dropTrailingWs : Str → Str
  | [] => []
  | c :: rest =>
    if (dropTrailingWs rest).isEmpty && isPySpace c then []
    else c :: dropTrailingWs rest

/-- Python `str.strip()` (ASCII whitespace). -/
def stripWs (l : Str) : Str := dropTrailingWs (l.dropWhile isPySpace)

/-- `normalize_ingredient_name` (lines 85-93): lower-case, transliterate,
remove bracketed sub-content, strip characters outside word/whitespace/
hyphen, collapse whitespace, trim; empty result (or empty input) is `none`. -/
def normalize_ingredient_name (name : Str) : Option Str :=
  if name = [] then none
  else
    let n1 := name.map lowerChar
    let n2 := unidecodeStr n1
    let n3 := removeBrackets n2
    let n4 := n3.filter keepChar
    let n5 := stripWs (collapseWs n4)
    if n5 = [] then none else some n5

/-- Lookahead `(?![^()]*\))` of the splitting regex: `true` when the first
parenthesis character ahead is `)`, i.e. when `[^()]*\)` matches and the
comma therefore must NOT split. -/
def nextParenIsClose : Str → Bool
  | [] => false
  | c :: rest =>
    if c = '(' then false
    else if c = ')' then true
    else nextParenIsClose rest

/-- Worker for `re.split(r',\s*(?![^()]*\))', text)`.  The flag records
that the previous characters were a matched separator, whose greedy `\s*`
still swallows whitespace. -/
def splitTopAux : Bool → Str → Str → List Str
  | _, acc, [] => [acc.reverse]
  | skipWs, acc, c :: rest =>
    if skipWs && isPySpace c then splitTopAux true acc rest
    else if c = ',' && !nextParenIsClose rest then
      acc.reverse :: splitTopAux true [] rest
    else splitTopAux false (c :: acc) rest

def splitTop (l : Str) : List Str := splitTopAux false [] l

/-- `item.split(':')[0]`. -/
def takeBeforeColon (s : Str) : Str := s.takeWhile (fun c => c ≠ ':')

/-- `item_clean.split(sep)[0]` for a multi-character separator. -/
def takeBeforeSeq (sep : Str) : Str → Str
  | [] => []
  | c :: rest =>
    if sep.isPrefixOf (c :: rest) then []
    else c :: takeBeforeSeq sep rest

/-- The literal separator of `item_clean.split('â€“')[0]` in the source:
the three characters U+00E2, U+20AC, U+201C (a mojibake-encoded dash). -/
def dashSep : Str := ['â', '€', '“']

/-- On a REVERSED string, consume the reversal of `\d+(\.\d+)?`
(greedy, as the regex engine keeps the fractional part only when digits
follow the dot); `none` when no digit is present. -/
def dropNumberRev (l : Str) : Option Str :=
  let d1 := l.takeWhile isDigit
  let r1 := l.dropWhile isDigit
  if d1 = [] then none
  else
    match r1 with
    | '.' :: r2 =>
      if r2.takeWhile isDigit = [] then some r1
      else some (r2.dropWhile isDigit)
    | _ => some r1

/-- `re.sub(r'\s*\d+(\.\d+)?\s*%\s*$', '', s)`: strip a trailing bare
percentage annotation, scanning from the right. -/
def stripBarePercent (s : Str) : Str :=
  let r := s.reverse
  let r1 := r.dropWhile isPySpace
  match r1 with
  | '%' :: r2 =>
    match dropNumberRev (r2.dropWhile isPySpace) with
    | some r4 => (r4.dropWhile isPySpace).reverse
    | none => s
  | _ => s

/-- `re.sub(r'\s*\(\s*\d+(\.\d+)?\s*%\s*\)\s*$', '', s)`: strip a trailing
parenthesized percentage annotation, scanning from the right. -/
def stripParenPercent (s : Str) : Str :=
  let r := s.reverse
  let r1 := r.dropWhile isPySpace
  match r1 with
  | ')' :: r2 =>
    match r2.dropWhile isPySpace with
    | '%' :: r4 =>
      match dropNumberRev (r4.dropWhile isPySpace) with
      | some r6 =>
        match r6.dropWhile isPySpace with
        | '(' :: r8 => (r8.dropWhile isPySpace).reverse
        | _ => s
      | none => s
    | _ => s
  | _ => s

/-- Per-fragment cleaning of `parse_ingredients_from_text` (lines 102-106):
cut at the first colon, cut at the (mojibake) dash, strip the parenthesized
then the bare trailing percentage. -/
def cleanFragment (item : Str) : Str :=
  let a := takeBeforeColon item
  let b := takeBeforeSeq dashSep a
  let c := stripWs (stripParenPercent (stripWs b))
  stripWs (stripBarePercent (stripWs c))

/-- Set-insert modelled on a duplicate-free list, keeping first-insertion
order. -/
def insertD (x : Str) (l : List Str) : List Str :=
  if x ∈ l then l else l ++ [x]

/-- Loop body of `parse_ingredients_from_text`: clean a fragment,
normalize it, and add a truthy result to the accumulating set. -/
def parseStep (acc : List Str) (item : Str) : List Str :=
  match normalize_ingredient_name (cleanFragment item) with
  | some n => insertD n acc
  | none => acc

/-- `parse_ingredients_from_text` (lines 96-110): split on top-level commas,
clean each fragment, normalize, and collect the results as a set. -/
def parse_ingredients_from_text (t : Str) : List Str :=
  if t = [] then [] else (splitTop t).foldl parseStep []

/-- Case-insensitive prefix stripping (`re.IGNORECASE` literal matching):
returns the rest of the haystack when the needle matches at its start. -/
def ciStripPrefix : Str → Str → Option Str
  | [], hay => some hay
  | _ :: _, [] => none
  | n :: ns, h :: hs => if lowerChar n = lowerChar h then ciStripPrefix ns hs else none

/-- Needle matches at the start of the haystack with a trailing `\b`
(all needles end in a word character, so the boundary holds exactly when
the haystack ends or continues with a non-word character). -/
def wholeAt (needle hay : Str) : Bool :=
  match ciStripPrefix needle hay with
  | some [] => true
  | some (c :: _) => !isWordChar c
  | none => false

/-- Worker for `re.search(r'\b<needle>\b', hay, re.IGNORECASE)`: the flag
records whether the previous haystack character was a word character
(so a leading `\b` holds exactly when it is `false`). -/
def wholePhraseAux (needle : Str) : Bool → Str → Bool
  | _, [] => false
  | prevW, c :: rest =>
    ((!prevW) && wholeAt needle (c :: rest)) || wholePhraseAux needle (isWordChar c) rest

/-- `re.search(r'\b<needle>\b', hay, re.IGNORECASE) is not None`. -/
def wholePhrase (needle hay : Str) : Bool := wholePhraseAux needle false hay

/-- One keyword pattern of `INGREDIENT_TO_ALLERGEN_MAP`, expanded into its
whole-word alternatives (a pattern `\bprawn(s)?\b` becomes the
alternatives `prawn` and `prawns`, `\bE22[0-8]\b` becomes `e220`..`e228`). -/
def patMatches (alts : List Str) (hay : Str) : Bool :=
  alts.any fun n => wholePhrase n hay

/-- Helper for writing table entries. -/
def pw (alts : List String) (a : String) : List Str × Str :=
  (alts.map String.toList, a.toList)

/-- `KNOWN_ALLERGENS` (lines 21-25), in source listing order. -/
def KNOWN_ALLERGENS : List Str :=
  [ "en:milk".toList, "en:eggs".toList, "en:fish".toList, "en:crustaceans".toList,
    "en:molluscs".toList, "en:peanuts".toList, "en:nuts".toList, "en:soybeans".toList,
    "en:gluten".toList, "en:celery".toList, "en:mustard".toList, "en:sesame-seeds".toList,
    "en:sulphur-dioxide-and-sulphites".toList, "en:lupin".toList ]

/-- `INGREDIENT_TO_ALLERGEN_MAP` (lines 27-62) in dict insertion order;
each regex is expanded into its list of whole-word alternatives. -/
def INGREDIENT_TO_ALLERGEN_MAP : List (List Str × Str) :=
  [ pw [ "milk" ] "en:milk", pw [ "butter" ] "en:milk", pw [ "cheese" ] "en:milk",
    pw [ "cream" ] "en:milk", pw [ "yogurt" ] "en:milk",
    pw [ "casein", "caseinate" ] "en:milk",
    pw [ "whey" ] "en:milk", pw [ "lactose" ] "en:milk",
    pw [ "egg", "eggs" ] "en:eggs", pw [ "ovalbumin" ] "en:eggs",
    pw [ "lysozyme" ] "en:eggs", pw [ "albumin" ] "en:eggs",
    pw [ "fish" ] "en:fish", pw [ "salmon" ] "en:fish", pw [ "tuna" ] "en:fish",
    pw [ "cod" ] "en:fish", pw [ "anchovy" ] "en:fish", pw [ "trout" ] "en:fish",
    pw [ "haddock" ] "en:fish",
    pw [ "shrimp" ] "en:crustaceans", pw [ "prawn", "prawns" ] "en:crustaceans",
    pw [ "crab" ] "en:crustaceans", pw [ "lobster" ] "en:crustaceans",
    pw [ "crayfish" ] "en:crustaceans", pw [ "krill" ] "en:crustaceans",
    pw [ "mollusc", "molluscs" ] "en:molluscs", pw [ "mussel", "mussels" ] "en:molluscs",
    pw [ "oyster", "oysters" ] "en:molluscs", pw [ "squid" ] "en:molluscs",
    pw [ "octopus" ] "en:molluscs", pw [ "snail", "snails" ] "en:molluscs",
    pw [ "clam", "clams" ] "en:molluscs", pw [ "scallop", "scallops" ] "en:molluscs",
    pw [ "peanut", "peanuts" ] "en:peanuts", pw [ "arachis" ] "en:peanuts",
    pw [ "nut", "nuts" ] "en:nuts",
    pw [ "almond", "almonds" ] "en:nuts", pw [ "hazelnut", "hazelnuts" ] "en:nuts",
    pw [ "walnut", "walnuts" ] "en:nuts", pw [ "cashew", "cashews" ] "en:nuts",
    pw [ "pecan", "pecans" ] "en:nuts", pw [ "brazil nut", "brazil nuts" ] "en:nuts",
    pw [ "pistachio", "pistachios" ] "en:nuts", pw [ "macadamia", "macadamias" ] "en:nuts",
    pw [ "queensland nut", "queensland nuts" ] "en:nuts",
    pw [ "soy" ] "en:soybeans", pw [ "soya" ] "en:soybeans",
    pw [ "lecithin" ] "en:soybeans", pw [ "tofu" ] "en:soybeans",
    pw [ "edamame" ] "en:soybeans", pw [ "miso" ] "en:soybeans",
    pw [ "tempeh" ] "en:soybeans", pw [ "bean curd" ] "en:soybeans",
    pw [ "wheat" ] "en:gluten", pw [ "gluten" ] "en:gluten", pw [ "barley" ] "en:gluten",
    pw [ "rye" ] "en:gluten", pw [ "oat", "oats" ] "en:gluten",
    pw [ "spelt" ] "en:gluten", pw [ "kamut" ] "en:gluten",
    pw [ "khorasan wheat" ] "en:gluten",
    pw [ "semolina" ] "en:gluten", pw [ "durum" ] "en:gluten",
    pw [ "couscous" ] "en:gluten", pw [ "triticale" ] "en:gluten",
    pw [ "flour" ] "en:gluten",
    pw [ "celery" ] "en:celery", pw [ "celeriac" ] "en:celery",
    pw [ "mustard" ] "en:mustard",
    pw [ "sesame" ] "en:sesame-seeds", pw [ "tahini" ] "en:sesame-seeds",
    pw [ "sulphite", "sulphites" ] "en:sulphur-dioxide-and-sulphites",
    pw [ "sulfite", "sulfites" ] "en:sulphur-dioxide-and-sulphites",
    pw [ "sulphur dioxide" ] "en:sulphur-dioxide-and-sulphites",
    pw [ "sulfur dioxide" ] "en:sulphur-dioxide-and-sulphites",
    pw [ "e220", "e221", "e222", "e223", "e224", "e225", "e226", "e227", "e228" ]
      "en:sulphur-dioxide-and-sulphites",
    pw [ "lupin", "lupins" ] "en:lupin" ]

/-- `DIETARY_PREFERENCES_MAP` (lines 64-69): preference name and its
positive label synonyms, in dict insertion order. -/
def DIETARY_PREFERENCES_MAP : List (Str × List Str) :=
  [ ("vegan".toList, [ "en:vegan".toList, "vegan".toList ]),
    ("vegetarian".toList, [ "en:vegetarian".toList, "vegetarian".toList ]),
    ("gluten_free".toList,
      [ "en:gluten-free".toList, "gluten-free".toList, "sans gluten".toList ]),
    ("lactose_free".toList,
      [ "en:lactose-free".toList, "lactose-free".toList, "sans lactose".toList ]) ]

/-- `DIETARY_CONFLICT_MAP` (lines 71-82): preference name and its set of
conflicting allergen/category identifiers, in dict insertion order. -/
def DIETARY_CONFLICT_MAP : List (Str × List Str) :=
  [ ("vegan".toList,
      [ "en:non-vegan".toList, "en:milk".toList, "en:eggs".toList, "en:fish".toList,
        "en:crustaceans".toList, "en:molluscs".toList, "en:meat".toList,
        "en:dairy".toList, "en:honey".toList, "en:collagen".toList,
        "en:gelatin".toList, "en:cheese".toList ]),
    ("vegetarian".toList,
      [ "en:non-vegetarian".toList, "en:fish".toList, "en:crustaceans".toList,
        "en:molluscs".toList, "en:meat".toList, "en:collagen".toList,
        "en:gelatin".toList ]),
    ("gluten_free".toList, [ "en:gluten".toList ]),
    ("lactose_free".toList, [ "en:milk".toList, "en:lactose".toList ]) ]

/-- One emitted TSV row: the header row, a Node row (ID, Name, Label), or a
Relationship row (RelationshipType, FromID, FromLabel, ToID, ToLabel). -/
inductive Row where
  | header : Row
  | node (id name label : Str) : Row
  | rel (relType fromId fromLabel toId toLabel : Str) : Row
deriving DecidableEq

/-- Shape of the `code` field of a source record. -/
inductive CodeField where
  | missing : CodeField
  | notStr : CodeField
  | str (s : Str) : CodeField
deriving DecidableEq

/-- An element of a tags list: a string, or a non-string value (which
`clean_tag` rejects). -/
inductive TagElem where
  | str (s : Str) : TagElem
  | notStr : TagElem
deriving DecidableEq

/-- Shape of a `*_tags` field: absent, a list, a comma-joined string, or a
value of unexpected shape (treated as empty). -/
inductive TagsField where
  | missing : TagsField
  | list (l : List TagElem) : TagsField
  | strv (s : Str) : TagsField
  | other : TagsField
deriving DecidableEq

/-- One source record, with the fields `generate_csv_data` fetches. -/
structure Record where
  code : CodeField
  product_name_en : Option Str
  product_name : Option Str
  generic_name_en : Option Str
  generic_name : Option Str
  ingredients_text_en : Option Str
  ingredients_text : Option Str
  allergens_tags : TagsField
  traces_tags : TagsField
  labels_tags : TagsField
deriving DecidableEq

/-- The rejection test of lines 176-179: a record is processed only when
its code is a string that is non-empty and not whitespace-only. -/
def validCode : CodeField → Option Str
  | .str s => if s = [] ∨ stripWs s = [] then none else some s
  | _ => none

/-- `clean_tag` (lines 113-116). -/
def clean_tag : TagElem → Option Str
  | .str s => some ((stripWs s).map lowerChar)
  | .notStr => none

/-- Plain `str.split(',')`. -/
def splitCommaAux : Str → Str → List Str
  | acc, [] => [acc.reverse]
  | acc, c :: r => if c = ',' then acc.reverse :: splitCommaAux [] r else splitCommaAux (c :: acc) r

def splitComma (s : Str) : List Str := splitCommaAux [] s

/-- Add a cleaned tag to the accumulating set when it is truthy and a
known allergen (`if cleaned_tag and cleaned_tag in KNOWN_ALLERGENS`). -/
def addKnownTag (acc : List Str) (t : TagElem) : List Str :=
  match clean_tag t with
  | some c => if c ≠ [] ∧ c ∈ KNOWN_ALLERGENS then insertD c acc else acc
  | none => acc

/-- `explicit_product_allergens` (lines 219-230). -/
def explicit_product_allergens : TagsField → List Str
  | .list l => l.foldl addKnownTag []
  | .strv s => ((splitComma s).map TagElem.str).foldl addKnownTag []
  | .missing => []
  | .other => []

/-- `processed_traces_allergens` (lines 254-263): a string field is first
split on commas, stripped and filtered for truthiness. -/
def processed_traces_allergens : TagsField → List Str
  | .strv s =>
    ((((splitComma s).map stripWs).filter (fun t => t ≠ [])).map TagElem.str).foldl addKnownTag []
  | .list l => l.foldl addKnownTag []
  | .missing => []
  | .other => []

/-- Add a cleaned label to the accumulating set when it is truthy. -/
def addLabelTag (acc : List Str) (t : TagElem) : List Str :=
  match clean_tag t with
  | some c => if c ≠ [] then insertD c acc else acc
  | none => acc

/-- `product_dietary_labels` (lines 269-279). -/
def product_dietary_labels : TagsField → List Str
  | .strv s =>
    ((((splitComma s).map stripWs).filter (fun t => t ≠ [])).map TagElem.str).foldl addLabelTag []
  | .list l => l.foldl addLabelTag []
  | .missing => []
  | .other => []

/-- `suitable_diet_prefs_for_product` (lines 281-285): the preferences
whose positive-synonym set meets the cleaned label set. -/
def suitable_diet_prefs (labels : List Str) : List Str :=
  DIETARY_PREFERENCES_MAP.foldl
    (fun acc d => if d.2.any (fun k => decide (k ∈ labels)) then insertD d.1 acc else acc) []

/-- Python `x or default` for an optional string field. -/
def orElseStr (o : Option Str) (d : Str) : Str :=
  match o with
  | some s => if s = [] then d else s
  | none => d

/-- The display-name fallback chain of lines 181-187. -/
def productDisplayName (r : Record) (code : Str) : Str :=
  orElseStr r.product_name_en (orElseStr r.product_name
    (orElseStr r.generic_name_en (orElseStr r.generic_name
      ("Product ".toList ++ code))))

/-- Line 191: `get("ingredients_text_en") or get("ingredients_text", "")`. -/
def chosenIngredientsText (r : Record) : Str :=
  orElseStr r.ingredients_text_en (match r.ingredients_text with | some s => s | none => [])

def lProduct : Str := "Product".toList
def lIngredient : Str := "Ingredient".toList
def lAllergen : Str := "Allergen".toList
def lDietPref : Str := "DietaryPreference".toList
def rHasIngredient : Str := "HAS_INGREDIENT".toList
def rIsAllergen : Str := "IS_ALLERGEN".toList
def rConflicts : Str := "CONFLICTS_WITH_DIET".toList
def rMayContain : Str := "MAY_CONTAIN_ALLERGEN".toList
def rSuitable : Str := "IS_SUITABLE_FOR".toList

/-- Lines 202-206: one IS_ALLERGEN row per keyword pattern that matches the
ingredient and maps to a known allergen (no per-pair dedup). -/
def isAllergenRowsFor (ing : Str) : List Row :=
  INGREDIENT_TO_ALLERGEN_MAP.flatMap fun p =>
    if patMatches p.1 ing ∧ p.2 ∈ KNOWN_ALLERGENS then
      [Row.rel rIsAllergen ing lIngredient p.2 lAllergen]
    else []

/-- Lines 209-214: the early-exiting scan deciding whether an ingredient
conflicts with a preference. -/
def ingredientConflicts (ing : Str) (conflictSet : List Str) : Bool :=
  INGREDIENT_TO_ALLERGEN_MAP.any fun p => patMatches p.1 ing && decide (p.2 ∈ conflictSet)

/-- Lines 208-217: at most one CONFLICTS_WITH_DIET row per preference. -/
def conflictRowsFor (ing : Str) : List Row :=
  DIETARY_CONFLICT_MAP.flatMap fun d =>
    if ingredientConflicts ing d.2 then
      [Row.rel rConflicts ing lIngredient d.1 lDietPref]
    else []

/-- Lines 194-217: the per-ingredient loop, threading the run-wide
`written_ingredients` ledger. -/
def ingLoop (code : Str) : List Str → List Str → List Row × List Str
  | written, [] => ([], written)
  | written, ing :: rest =>
    let nodeRows := if ing ∈ written then ([] : List Row) else [Row.node ing [] lIngredient]
    let written1 := if ing ∈ written then written else ing :: written
    let rows1 := nodeRows ++
      Row.rel rHasIngredient code lProduct ing lIngredient ::
        (isAllergenRowsFor ing ++ conflictRowsFor ing)
    let next := ingLoop code written1 rest
    (rows1 ++ next.1, next.2)

/-- Lines 233-240: whether some parsed ingredient explains the explicit
allergen tag. -/
def explainedBy (ings : List Str) (a : Str) : Bool :=
  ings.any fun ing =>
    INGREDIENT_TO_ALLERGEN_MAP.any fun p => patMatches p.1 ing && decide (p.2 = a)

/-- Line 243: `f"{allergen_name}_source_for_{product_code}"`. -/
def proxyNameFor (a code : Str) : Str := a ++ "_source_for_".toList ++ code

/-- Lines 232-252: the proxy-synthesis loop over explicit allergen tags. -/
def proxyLoop (code : Str) (ings : List Str) : List Str → List Str → List Row × List Str
  | written, [] => ([], written)
  | written, a :: rest =>
    if explainedBy ings a then proxyLoop code ings written rest
    else
      let pn := proxyNameFor a code
      let nodeRows := if pn ∈ written then ([] : List Row) else [Row.node pn [] lIngredient]
      let written1 := if pn ∈ written then written else pn :: written
      let rows1 := nodeRows ++
        [Row.rel rHasIngredient code lProduct pn lIngredient,
         Row.rel rIsAllergen pn lIngredient a lAllergen]
      let next := proxyLoop code ings written1 rest
      (rows1 ++ next.1, next.2)

/-- The state that persists across records: the node-dedup ledger and the
two counters (lines 150, 171-172). -/
structure GenState where
  written_ingredients : List Str
  processed_count : Nat
  missing_code_skipped : Nat
deriving DecidableEq

def initState : GenState := ⟨[], 0, 0⟩

/-- Lines 174-291: processing of one record, yielding its emitted rows (in
emission order) and the updated state.  A record with an invalid code
yields no rows and only bumps the rejection counter. -/
def processRecord (st : GenState) (r : Record) : List Row × GenState :=
  match validCode r.code with
  | none => ([], { st with missing_code_skipped := st.missing_code_skipped + 1 })
  | some code =>
    let prodRow := Row.node code (productDisplayName r code) lProduct
    let ings := parse_ingredients_from_text (chosenIngredientsText r)
    let s1 := ingLoop code st.written_ingredients ings
    let expl := explicit_product_allergens r.allergens_tags
    let s2 := proxyLoop code ings s1.2 expl
    let traceRows := (processed_traces_allergens r.traces_tags).map fun a =>
      Row.rel rMayContain code lProduct a lAllergen
    let suitRows := (suitable_diet_prefs (product_dietary_labels r.labels_tags)).map fun d =>
      Row.rel rSuitable code lProduct d lDietPref
    (prodRow :: (s1.1 ++ s2.1 ++ traceRows ++ suitRows),
     { written_ingredients := s2.2, processed_count := st.processed_count + 1,
       missing_code_skipped := st.missing_code_skipped })

/-- The record loop of line 174, threading state left to right. -/
def runLoop (st : GenState) : List Record → List Row × GenState
  | [] => ([], st)
  | r :: rest =>
    let s1 := processRecord st r
    let s2 := runLoop s1.2 rest
    (s1.1 ++ s2.1, s2.2)

/-- Lines 159-169: the unconditional Allergen and DietaryPreference node
preamble (the guard sets are freshly empty, so every entry is written). -/
def preambleRows : List Row :=
  KNOWN_ALLERGENS.map (fun a => Row.node a [] lAllergen)
    ++ DIETARY_PREFERENCES_MAP.map (fun d => Row.node d.1 [] lDietPref)

/-- All rows the run writes, in order: header, preamble, then per-record
rows.  An empty record stream writes nothing (the early return of
lines 143-145 fires before the file is opened). -/
def runRows (records : List Record) : List Row :=
  if records.isEmpty then []
  else Row.header :: (preambleRows ++ (runLoop initState records).1)

/-- Observable outcome of one `generate_csv_data` call: the rows that
reached the file, the message passed to `logging.error` (if any), and
whether the call returned normally to its caller. -/
structure GenOutcome where
  fileRows : List Row
  loggedError : Option Str
  returnedNormally : Bool
deriving DecidableEq

/-- The sink: writes rows in order; an I/O failure at write index `k`
leaves exactly the first `k` rows in the file and raises. -/
def writeRowsUpTo (failAt : Option Nat) (rows : List Row) : List Row × Bool :=
  match failAt with
  | none => (rows, false)
  | some k => if k < rows.length then (rows.take k, true) else (rows, false)

/-- Lines 154-300: the whole generation run wrapped in
`try ... except IOError as e: logging.error(...)`.  The except-branch logs
the failure with context and falls off the end of the function, so the
call returns normally on both paths. -/
def generate_csv_data (records : List Record) (failAt : Option Nat) : GenOutcome :=
  let rows := runRows records
  let w := writeRowsUpTo failAt rows
  { fileRows := w.1,
    loggedError := if w.2 then some ("Error writing to TSV file".toList) else none,
    returnedNormally := true }

/-- Number of Node rows with the given label and identifier. -/
def countNode (rows : List Row) (label id : Str) : Nat :=
  rows.countP fun row =>
    match row with
    | .node i _ l => decide (i = id) && decide (l = label)
    | _ => false

/-- Number of occurrences of one exact row. -/
def countRow (rows : List Row) (target : Row) : Nat :=
  rows.countP fun row => decide (row = target)

/-- Number of occurrences of a string in a string list. -/
def countStr (l : List Str) (a : Str) : Nat :=
  l.countP fun x => decide (x = a)

/-- Convenience builder for concrete example records whose tag fields are
string lists. -/
def mkRecord (code : String) (ing : String) (alg trc lbl : List String) : Record :=
  { code := CodeField.str code.toList
    product_name_en := none, product_name := none
    generic_name_en := none, generic_name := none
    ingredients_text_en := none
    ingredients_text := if ing = "" then none else some ing.toList
    allergens_tags := TagsField.list (alg.map (fun s => TagElem.str s.toList))
    traces_tags := TagsField.list (trc.map (fun s => TagElem.str s.toList))
    labels_tags := TagsField.list (lbl.map (fun s => TagElem.str s.toList)) }

/-- A record whose single ingredient matches two gluten keyword patterns. -/
def recWheatFlour : Record := mkRecord "1" "wheat flour" [] [] []

/-- A record with an explicit milk tag and no dairy-matching ingredient. -/
def recProxy : Record := mkRecord "77" "water" [ "en:milk" ] [] []

/-- A record with an explicit milk tag and the ingredient cheese. -/
def recCheese : Record := mkRecord "77" "cheese" [ "en:milk" ] [] []

/-- A plain single-ingredient record. -/
def recSalt : Record := mkRecord "5" "salt" [] [] []

/-- A record labelled vegan whose ingredient conflicts with vegan. -/
def recVegan : Record := mkRecord "123" "milk" [] [] [ "en:vegan" ]

/-- A record with duplicated trace and label tags. -/
def recDupTags : Record := mkRecord "9" "" [] [ "en:milk", "EN:MILK " ] [ "vegan", "en:vegan" ]

/-- A record with no product code at all. -/
def recBad : Record :=
  { code := CodeField.missing
    product_name_en := none, product_name := none
    generic_name_en := none, generic_name := none
    ingredients_text_en := none, ingredients_text := some ("salt".toList)
    allergens_tags := TagsField.missing, traces_tags := TagsField.missing
    labels_tags := TagsField.missing }

/-- Claim C1: for the input `"water, flavour (contains: sulphites, 2%)"`
the claimed result set is `{"water", "flavour"}`.  The code instead cuts
the second fragment at the colon inside the parentheses (line 102), so the
splitter returns `{"water", "flavour contains"}`: the inner comma indeed
creates no third fragment, but `"flavour"` is not in the result.  This
theorem evaluates the code at the failing input. -/
theorem claim_c1_parse_eval :
    parse_ingredients_from_text ("water, flavour (contains: sulphites, 2%)".toList)
        = [ "water".toList, "flavour contains".toList ]
    ∧ "flavour".toList ∉
        parse_ingredients_from_text ("water, flavour (contains: sulphites, 2%)".toList) := by
  decide

/-- Claim C2: a fragment `"en:water"` is claimed to contribute `"water"`.
The code comment on line 102 says the colon split removes language
prefixes, but `split(':')[0]` keeps the prefix and drops the remainder, so
the fragment contributes `"en"` instead.  This theorem evaluates the code
at the failing input. -/
theorem claim_c2_parse_eval :
    parse_ingredients_from_text ("en:water".toList) = [ "en".toList ]
    ∧ "water".toList ∉ parse_ingredients_from_text ("en:water".toList) := by
  decide

/-- Claim C7: a record whose code is absent, not a string, empty, or
whitespace-only produces no rows at all, leaves the dedup ledger and the
processed counter unchanged, increments the rejection counter, and the run
continues with the remaining records from exactly that bumped state. -/
theorem claim_c7_rejected_record (st : GenState) (r : Record) (rest : List Record)
    (h : validCode r.code = none) :
    processRecord st r
        = ([], { st with missing_code_skipped := st.missing_code_skipped + 1 })
    ∧ runLoop st (r :: rest)
        = runLoop { st with missing_code_skipped := st.missing_code_skipped + 1 } rest := by
  constructor
  · simp [processRecord, h]
  · simp [runLoop, processRecord, h]

/-- Claim C7, witness: the rejection behaviour at a concrete record with a
missing code. -/
theorem claim_c7_witness :
    processRecord initState recBad
        = ([], { initState with missing_code_skipped := initState.missing_code_skipped + 1 })
    ∧ runLoop initState [recBad]
        = runLoop { initState with missing_code_skipped := initState.missing_code_skipped + 1 } [] :=
  claim_c7_rejected_record initState recBad [] (by decide)

/-- Claim C8, counterexample: the claim says an I/O failure while writing
is surfaced to the caller rather than swallowed.  With a failure at the
very first write the run is indeed aborted (the file keeps none of the
pending rows), but `generate_csv_data` catches the error (lines 297-298)
and returns normally, so its caller observes successful completion. -/
theorem claim_c8_counterexample :
    0 < (runRows [recSalt]).length
    ∧ (generate_csv_data [recSalt] (some 0)).fileRows ≠ runRows [recSalt]
    ∧ (generate_csv_data [recSalt] (some 0)).returnedNormally = true := by
  decide

/-- Claim C8 as amended: an I/O failure at write `k` aborts the run (the
file holds exactly the rows written before the failure), and the failure
is logged with context, but the exception is caught inside
`generate_csv_data`, which returns normally, so the caller observes
successful completion. -/
theorem claim_c8_amended (records : List Record) (k : Nat)
    (h : k < (runRows records).length) :
    (generate_csv_data records (some k)).fileRows = (runRows records).take k
    ∧ (generate_csv_data records (some k)).loggedError
        = some ("Error writing to TSV file".toList)
    ∧ (generate_csv_data records (some k)).returnedNormally = true := by
  simp [generate_csv_data, writeRowsUpTo, h]

/-- Claim C8, witness: the amended behaviour at a concrete record stream
with a failure at the first write. -/
theorem claim_c8_witness :
    (generate_csv_data [recSalt] (some 0)).fileRows = (runRows [recSalt]).take 0
    ∧ (generate_csv_data [recSalt] (some 0)).loggedError
        = some ("Error writing to TSV file".toList)
    ∧ (generate_csv_data [recSalt] (some 0)).returnedNormally = true :=
  claim_c8_amended [recSalt] 0 (by decide)

/-- Claim C9, counterexample: the normalizer is claimed idempotent on its
own outputs.  `"Bei"` is the output of normalizing `"北"` (transliteration
runs after lower-casing and can introduce capital letters), and
normalizing `"Bei"` gives `"bei"`, not `"Bei"`. -/
theorem claim_c9_counterexample :
    normalize_ingredient_name ("北".toList) = some ("Bei".toList)
    ∧ normalize_ingredient_name ("Bei".toList) = some ("bei".toList)
    ∧ "bei".toList ≠ "Bei".toList := by
  decide

lemma collapseAux_cons_ws_true {a : Char} {t : Str} (h : isPySpace a = true) :
    collapseAux true (a :: t) = collapseAux true t := by
  simp [collapseAux, h]

lemma collapseAux_cons_ws_false {a : Char} {t : Str} (h : isPySpace a = true) :
    collapseAux false (a :: t) = ' ' :: collapseAux true t := by
  simp [collapseAux, h]

lemma collapseAux_cons_nws {a : Char} {t : Str} (h : isPySpace a = false) (b : Bool) :
    collapseAux b (a :: t) = a :: collapseAux false t := by
  simp [collapseAux, h]

lemma mem_insertD {x n : Str} {l : List Str} : n ∈ insertD x l ↔ n = x ∨ n ∈ l := by
  unfold insertD
  by_cases h : x ∈ l
  · simp only [if_pos h]
    constructor
    · exact Or.inr
    · rintro (rfl | hn)
      · exact h
      · exact hn
  · simp only [if_neg h, List.mem_append, List.mem_singleton]
    tauto

lemma nodup_insertD {x : Str} {l : List Str} (hl : l.Nodup) : (insertD x l).Nodup := by
  unfold insertD
  by_cases h : x ∈ l
  · simp only [if_pos h]; exact hl
  · simp [List.nodup_append, hl, h]

lemma foldl_step_mem {α : Type} (step : List Str → α → List Str) (P : α → Str → Prop)
    (hstep : ∀ acc x n, n ∈ step acc x → n ∈ acc ∨ P x n) :
    ∀ (l : List α) (acc : List Str) (n : Str),
      n ∈ l.foldl step acc → n ∈ acc ∨ ∃ x ∈ l, P x n := by
  intro l
  induction l with
  | nil => intro acc n h; exact Or.inl h
  | cons a t ih =>
    intro acc n h
    rcases ih (step acc a) n h with h1 | ⟨x, hx, hp⟩
    · rcases hstep acc a n h1 with h3 | h4
      · exact Or.inl h3
      · exact Or.inr ⟨a, by simp, h4⟩
    · exact Or.inr ⟨x, by simp [hx], hp⟩

lemma foldl_step_nodup {α : Type} (step : List Str → α → List Str)
    (hstep : ∀ acc x, step acc x = acc ∨ ∃ c, step acc x = insertD c acc) :
    ∀ (l : List α) (acc : List Str), acc.Nodup → (l.foldl step acc).Nodup := by
  intro l
  induction l with
  | nil => intro acc h; exact h
  | cons a t ih =>
    intro acc h
    refine ih (step acc a) ?_
    rcases hstep acc a with h1 | ⟨c, h2⟩
    · rwa [h1]
    · rw [h2]; exact nodup_insertD h

lemma mem_of_mem_dropTrailingWs {l : Str} {c : Char} (h : c ∈ dropTrailingWs l) : c ∈ l := by
  induction l with
  | nil => simp [dropTrailingWs] at h
  | cons a t ih =>
    simp only [dropTrailingWs] at h
    split at h
    · simp at h
    · rcases List.mem_cons.mp h with rfl | h2
      · exact List.mem_cons_self _ _
      · exact List.mem_cons_of_mem _ (ih h2)

lemma mem_of_mem_stripWs {l : Str} {c : Char} (h : c ∈ stripWs l) : c ∈ l :=
  (List.dropWhile_sublist _).mem (mem_of_mem_dropTrailingWs h)

lemma mem_collapseAux {c : Char} :
    ∀ {l : Str} {b : Bool}, c ∈ collapseAux b l → c = ' ' ∨ (c ∈ l ∧ isPySpace c = false) := by
  intro l
  induction l with
  | nil => intro b h; simp [collapseAux] at h
  | cons a t ih =>
    intro b h
    by_cases ha : isPySpace a
    · cases b with
      | true =>
        rw [collapseAux_cons_ws_true ha] at h
        rcases ih h with h1 | ⟨h2, h3⟩
        · exact Or.inl h1
        · exact Or.inr ⟨List.mem_cons_of_mem _ h2, h3⟩
      | false =>
        rw [collapseAux_cons_ws_false ha] at h
        rcases List.mem_cons.mp h with rfl | h2
        · exact Or.inl rfl
        · rcases ih h2 with h1 | ⟨h3, h4⟩
          · exact Or.inl h1
          · exact Or.inr ⟨List.mem_cons_of_mem _ h3, h4⟩
    · rw [collapseAux_cons_nws (by simpa using ha) b] at h
      rcases List.mem_cons.mp h with rfl | h2
      · exact Or.inr ⟨List.mem_cons_self _ _, by simpa using ha⟩
      · rcases ih h2 with h1 | ⟨h3, h4⟩
        · exact Or.inl h1
        · exact Or.inr ⟨List.mem_cons_of_mem _ h3, h4⟩

lemma normalize_eq_some {x s : Str} (h : normalize_ingredient_name x = some s) :
    s = stripWs (collapseWs
          ((removeBrackets (unidecodeStr (x.map lowerChar))).filter keepChar)) := by
  by_cases h1 : x = []
  · simp [normalize_ingredient_name, h1] at h
  · by_cases h2 :
      stripWs (collapseWs
        ((removeBrackets (unidecodeStr (x.map lowerChar))).filter keepChar)) = []
    · simp [normalize_ingredient_name, h1, h2] at h
    · simp [normalize_ingredient_name, h1, h2] at h
      exact h.symm

lemma normalize_mem_chars {x s : Str} (h : normalize_ingredient_name x = some s) :
    ∀ c ∈ s, isWordChar c = true ∨ c = ' ' ∨ c = '-' := by
  intro c hc
  rw [normalize_eq_some h] at hc
  have h1 := mem_of_mem_stripWs hc
  rcases mem_collapseAux h1 with rfl | ⟨h2, h3⟩
  · exact Or.inr (Or.inl rfl)
  · have h4 := (List.mem_filter.mp h2).2
    simp only [keepChar, Bool.or_eq_true, beq_iff_eq] at h4
    rcases h4 with (hw | hsp) | hd
    · exact Or.inl hw
    · rw [h3] at hsp; exact absurd hsp (by simp)
    · exact Or.inr (Or.inr hd)

lemma parse_mem_normalized {t n : Str} (h : n ∈ parse_ingredients_from_text t) :
    ∃ item, normalize_ingredient_name (cleanFragment item) = some n := by
  unfold parse_ingredients_from_text at h
  split at h
  · simp at h
  · have := foldl_step_mem parseStep
      (fun item n => normalize_ingredient_name (cleanFragment item) = some n)
      ?_ (splitTop t) [] n h
    · rcases this with h1 | ⟨x, _, hp⟩
      · simp at h1
      · exact ⟨x, hp⟩
    · intro acc x m hm
      unfold parseStep at hm
      rcases hh : normalize_ingredient_name (cleanFragment x) with _ | v <;> rw [hh] at hm
      · exact Or.inl hm
      · rcases mem_insertD.mp hm with rfl | h2
        · exact Or.inr hh
        · exact Or.inl h2

lemma parse_no_colon {t n : Str} (h : n ∈ parse_ingredients_from_text t) : ':' ∉ n := by
  intro hc
  obtain ⟨item, hi⟩ := parse_mem_normalized h
  rcases normalize_mem_chars hi ':' hc with h1 | h2 | h3
  · exact absurd h1 (by decide)
  · exact absurd h2 (by decide)
  · exact absurd h3 (by decide)

lemma known_has_colon : ∀ a ∈ KNOWN_ALLERGENS, ':' ∈ a := by decide

lemma collapseAux_true_head {l : Str} {c : Char} {rest : Str}
    (h : collapseAux true l = c :: rest) : isPySpace c = false := by
  induction l generalizing c rest with
  | nil => simp [collapseAux] at h
  | cons a t ih =>
    by_cases ha : isPySpace a
    · rw [collapseAux_cons_ws_true ha] at h
      exact ih h
    · rw [collapseAux_cons_nws (by simpa using ha) true] at h
      cases h
      simpa using ha

lemma chain_collapseAux :
    ∀ (l : Str) (b : Bool),
      List.Chain' (fun a c => isPySpace a = false ∨ isPySpace c = false) (collapseAux b l) := by
  intro l
  induction l with
  | nil => intro b; simp [collapseAux]
  | cons a t ih =>
    intro b
    by_cases ha : isPySpace a
    · cases b with
      | true => rw [collapseAux_cons_ws_true ha]; exact ih true
      | false =>
        rw [collapseAux_cons_ws_false ha]
        refine List.chain'_cons'.mpr ⟨?_, ih true⟩
        intro c hc
        rcases hh : collapseAux true t with _ | ⟨c2, rest⟩
        · rw [hh] at hc; simp at hc
        · rw [hh] at hc
          simp at hc
          exact Or.inr (hc ▸ collapseAux_true_head hh)
    · rw [collapseAux_cons_nws (by simpa using ha) b]
      refine List.chain'_cons'.mpr ⟨?_, ih false⟩
      intro c _
      exact Or.inl (by simpa using ha)

lemma dropTrailingWs_front (l : Str) : dropTrailingWs l <+: l := by
  induction l with
  | nil => simp [dropTrailingWs]
  | cons a t ih =>
    simp only [dropTrailingWs]
    split
    · exact List.nil_prefix
    · exact List.cons_prefix_cons.mpr ⟨rfl, ih⟩

lemma head_dropWhile_false {p : Char → Bool} :
    ∀ {l : Str} {c : Char} {rest : Str}, l.dropWhile p = c :: rest → p c = false := by
  intro l
  induction l with
  | nil => intro c rest h; simp [List.dropWhile] at h
  | cons a t ih =>
    intro c rest h
    by_cases hp : p a
    · rw [List.dropWhile_cons_of_pos hp] at h
      exact ih h
    · rw [List.dropWhile_cons_of_neg hp] at h
      cases h
      simpa using hp

lemma getLast_dropTrailingWs {c : Char} :
    ∀ {l : Str}, (dropTrailingWs l).getLast? = some c → isPySpace c = false := by
  intro l
  induction l with
  | nil => intro h; simp [dropTrailingWs] at h
  | cons a t ih =>
    intro h
    simp only [dropTrailingWs] at h
    split at h
    · simp at h
    · rename_i hguard
      rcases hh : dropTrailingWs t with _ | ⟨c2, rest⟩
      · rw [hh] at h hguard
        simp at h hguard
        exact h ▸ hguard
      · rw [hh] at h
        rw [List.getLast?_cons_cons] at h
        rw [← hh] at h
        exact ih h

lemma collapseAux_id :
    ∀ (l : Str) (b : Bool),
      (∀ c ∈ l, isPySpace c = true → c = ' ') →
      List.Chain' (fun a c => isPySpace a = false ∨ isPySpace c = false) l →
      (b = true → ∀ c ∈ l.head?, isPySpace c = false) →
      collapseAux b l = l := by
  intro l
  induction l with
  | nil => intro b _ _ _; simp [collapseAux]
  | cons a t ih =>
    intro b hgood hch hhead
    by_cases ha : isPySpace a
    · cases b with
      | true =>
        exact absurd ha (by simpa using hhead rfl a (by simp))
      | false =>
        rw [collapseAux_cons_ws_false ha]
        have ha' : a = ' ' := hgood a (by simp) ha
        have htail : collapseAux true t = t := by
          refine ih true (fun c hc hw => hgood c (by simp [hc]) hw)
            (List.chain'_cons'.mp hch).2 ?_
          intro _ c hc
          rcases (List.chain'_cons'.mp hch).1 c hc with h1 | h2
          · exact absurd ha (by simp [h1])
          · exact h2
        rw [htail, ha']
    · rw [collapseAux_cons_nws (by simpa using ha) b]
      rw [ih false (fun c hc hw => hgood c (by simp [hc]) hw)
        (List.chain'_cons'.mp hch).2 (by simp)]

lemma dropTrailingWs_id :
    ∀ (l : Str), (∀ c ∈ l.getLast?, isPySpace c = false) → dropTrailingWs l = l := by
  intro l
  induction l with
  | nil => simp [dropTrailingWs]
  | cons a t ih =>
    intro hlast
    rcases ht : t with _ | ⟨b, t2⟩
    · have ha : isPySpace a = false := hlast a (by simp [ht])
      simp [ht, dropTrailingWs, ha]
    · rw [← ht]
      have htne : t ≠ [] := by simp [ht]
      have : dropTrailingWs t = t := by
        refine ih ?_
        intro c hc
        exact hlast c (List.mem_getLast?_cons hc)
      simp only [dropTrailingWs, this]
      have : t.isEmpty = false := by simp [ht]
      simp [this]

lemma map_id_of_mem {l : Str} {f : Char → Char} (h : ∀ c ∈ l, f c = c) : l.map f = l := by
  induction l with
  | nil => simp
  | cons a t ih => simp [h a (by simp), ih (fun c hc => h c (by simp [hc]))]

lemma flatMap_id_of_mem {l : Str} {f : Char → Str} (h : ∀ c ∈ l, f c = [c]) :
    l.flatMap f = l := by
  induction l with
  | nil => simp
  | cons a t ih => simp [h a (by simp), ih (fun c hc => h c (by simp [hc]))]

lemma removeBracketsAux_id :
    ∀ (l : Str), (∀ c ∈ l, c ≠ '(' ∧ c ≠ '[') → removeBracketsAux false l = l := by
  intro l
  induction l with
  | nil => intro _; simp [removeBracketsAux]
  | cons a t ih =>
    intro h
    have ha := h a (by simp)
    simp only [removeBracketsAux]
    rw [if_neg (by simp [ha.1, ha.2])]
    rw [ih (fun c hc => h c (by simp [hc]))]

lemma normalize_ne_nil {x s : Str} (h : normalize_ingredient_name x = some s) : s ≠ [] := by
  by_cases h1 : x = []
  · simp [normalize_ingredient_name, h1] at h
  · by_cases h2 :
      stripWs (collapseWs
        ((removeBrackets (unidecodeStr (x.map lowerChar))).filter keepChar)) = []
    · simp [normalize_ingredient_name, h1, h2] at h
    · simp [normalize_ingredient_name, h1, h2] at h
      rw [← h]
      exact h2

lemma stripWs_canon (l : Str) :
    List.Chain' (fun a c => isPySpace a = false ∨ isPySpace c = false) (collapseWs l) →
    (List.Chain' (fun a c => isPySpace a = false ∨ isPySpace c = false)
        (stripWs (collapseWs l))
      ∧ (∀ c ∈ (stripWs (collapseWs l)).head?, isPySpace c = false)
      ∧ (∀ c ∈ (stripWs (collapseWs l)).getLast?, isPySpace c = false)) := by
  intro hch
  refine ⟨?_, ?_, ?_⟩
  · exact List.Chain'.prefix (List.Chain'.suffix hch (List.dropWhile_suffix _)) (dropTrailingWs_front _)
  · intro c hc
    rcases hh : stripWs (collapseWs l) with _ | ⟨c1, rest⟩
    · rw [hh] at hc; simp at hc
    · rw [hh] at hc
      simp at hc
      subst hc
      have hpre := dropTrailingWs_front ((collapseWs l).dropWhile isPySpace)
      unfold stripWs at hh
      rw [hh] at hpre
      rcases hpre with ⟨t2, ht2⟩
      exact head_dropWhile_false ht2.symm
  · intro c hc
    exact getLast_dropTrailingWs hc

lemma normalize_output_canon {x s : Str} (h : normalize_ingredient_name x = some s) :
    (∀ c ∈ s, isPySpace c = true → c = ' ')
    ∧ List.Chain' (fun a c => isPySpace a = false ∨ isPySpace c = false) s
    ∧ (∀ c ∈ s.head?, isPySpace c = false)
    ∧ (∀ c ∈ s.getLast?, isPySpace c = false) := by
  have he := normalize_eq_some h
  have hcanon := stripWs_canon
    ((removeBrackets (unidecodeStr (x.map lowerChar))).filter keepChar)
    (chain_collapseAux _ false)
  refine ⟨?_, he ▸ hcanon.1, he ▸ hcanon.2.1, he ▸ hcanon.2.2⟩
  intro c hc hw
  rw [he] at hc
  rcases mem_collapseAux (mem_of_mem_stripWs hc) with rfl | ⟨_, h3⟩
  · rfl
  · rw [hw] at h3
    cases h3

/-- Claim C9 as amended: the normalizer is idempotent on every output that
contains no uppercase ASCII letter.  (Transliteration runs after
lower-casing and can put uppercase letters into an output; on those a
second application lower-cases, as the counterexample shows.) -/
theorem claim_c9_amended (x s : Str) (h : normalize_ingredient_name x = some s)
    (hupper : ∀ c ∈ s, ¬(65 ≤ c.toNat ∧ c.toNat ≤ 90)) :
    normalize_ingredient_name s = some s := by
  obtain ⟨hgood, hch, hhead, hlast⟩ := normalize_output_canon h
  have hchars := normalize_mem_chars h
  have hne := normalize_ne_nil h
  have e1 : s.map lowerChar = s := by
    refine map_id_of_mem ?_
    intro c hc
    unfold lowerChar
    rw [if_neg (hupper c hc)]
  have hascii : ∀ c ∈ s, c.toNat ≤ 127 := by
    intro c hc
    rcases hchars c hc with hw | rfl | rfl
    · simp only [isWordChar, Bool.or_eq_true, Bool.and_eq_true, decide_eq_true_eq,
        beq_iff_eq] at hw
      omega
    · decide
    · decide
  have e2 : unidecodeStr s = s := by
    refine flatMap_id_of_mem ?_
    intro c hc
    unfold unidecodeChar
    rw [if_pos (hascii c hc)]
  have hnotbr : ∀ c ∈ s, c ≠ '(' ∧ c ≠ '[' := by
    intro c hc
    rcases hchars _ hc with hw | rfl | rfl
    · constructor <;> rintro rfl <;> exact absurd hw (by decide)
    · exact ⟨by decide, by decide⟩
    · exact ⟨by decide, by decide⟩
  have e3 : removeBrackets s = s := removeBracketsAux_id s hnotbr
  have e4 : s.filter keepChar = s := by
    rw [List.filter_eq_self]
    intro c hc
    rcases hchars c hc with hw | rfl | rfl
    · simp [keepChar, hw]
    · decide
    · decide
  have e5 : collapseWs s = s := collapseAux_id s false hgood hch (by simp)
  have e6 : stripWs s = s := by
    unfold stripWs
    have hdw : s.dropWhile isPySpace = s := by
      rcases hs : s with _ | ⟨c1, rest⟩
      · simp
      · refine List.dropWhile_cons_of_neg ?_
        have := hhead c1 (by simp [hs])
        simp [this]
    rw [hdw]
    exact dropTrailingWs_id s hlast
  have key : stripWs (collapseWs ((removeBrackets (unidecodeStr (s.map lowerChar))).filter keepChar)) = s := by
    rw [e1, e2, e3, e4, e5, e6]
  simp [normalize_ingredient_name, hne, key]

/-- Claim C9, witness: the amended idempotence at the concrete
already-normalized name `"water"`. -/
theorem claim_c9_amended_witness :
    normalize_ingredient_name ("water".toList) = some ("water".toList) :=
  claim_c9_amended ("water".toList) ("water".toList) (by decide) (by decide)

lemma nodup_parse (t : Str) : (parse_ingredients_from_text t).Nodup := by
  unfold parse_ingredients_from_text
  split
  · exact List.nodup_nil
  · refine foldl_step_nodup parseStep ?_ (splitTop t) [] List.nodup_nil
    intro acc x
    unfold parseStep
    rcases normalize_ingredient_name (cleanFragment x) with _ | v
    · exact Or.inl rfl
    · exact Or.inr ⟨v, rfl⟩

lemma addKnownTag_step (acc : List Str) (t : TagElem) :
    addKnownTag acc t = acc ∨ ∃ c, addKnownTag acc t = insertD c acc := by
  rcases hct : clean_tag t with _ | c
  · exact Or.inl (by simp [addKnownTag, hct])
  · by_cases h : c ≠ [] ∧ c ∈ KNOWN_ALLERGENS
    · exact Or.inr ⟨c, by simp only [addKnownTag, hct]; rw [if_pos h]⟩
    · exact Or.inl (by simp only [addKnownTag, hct]; rw [if_neg h])

lemma addLabelTag_step (acc : List Str) (t : TagElem) :
    addLabelTag acc t = acc ∨ ∃ c, addLabelTag acc t = insertD c acc := by
  rcases hct : clean_tag t with _ | c
  · exact Or.inl (by simp [addLabelTag, hct])
  · by_cases h : c ≠ []
    · exact Or.inr ⟨c, by simp only [addLabelTag, hct]; rw [if_pos h]⟩
    · exact Or.inl (by simp only [addLabelTag, hct]; rw [if_neg h])

lemma nodup_explicit (f : TagsField) : (explicit_product_allergens f).Nodup := by
  rcases f with _ | l | s | _
  · exact List.nodup_nil
  · exact foldl_step_nodup addKnownTag (fun acc t => addKnownTag_step acc t) l [] List.nodup_nil
  · exact foldl_step_nodup addKnownTag (fun acc t => addKnownTag_step acc t) _ [] List.nodup_nil
  · exact List.nodup_nil

lemma nodup_traces (f : TagsField) : (processed_traces_allergens f).Nodup := by
  rcases f with _ | l | s | _
  · exact List.nodup_nil
  · exact foldl_step_nodup addKnownTag (fun acc t => addKnownTag_step acc t) l [] List.nodup_nil
  · exact foldl_step_nodup addKnownTag (fun acc t => addKnownTag_step acc t) _ [] List.nodup_nil
  · exact List.nodup_nil

lemma nodup_labels (f : TagsField) : (product_dietary_labels f).Nodup := by
  rcases f with _ | l | s | _
  · exact List.nodup_nil
  · exact foldl_step_nodup addLabelTag (fun acc t => addLabelTag_step acc t) l [] List.nodup_nil
  · exact foldl_step_nodup addLabelTag (fun acc t => addLabelTag_step acc t) _ [] List.nodup_nil
  · exact List.nodup_nil

lemma nodup_suitable (labels : List Str) : (suitable_diet_prefs labels).Nodup := by
  unfold suitable_diet_prefs
  refine foldl_step_nodup _ ?_ DIETARY_PREFERENCES_MAP [] List.nodup_nil
  intro acc d
  by_cases h : d.2.any (fun k => decide (k ∈ labels)) = true
  · exact Or.inr ⟨d.1, by rw [if_pos h]⟩
  · exact Or.inl (by rw [if_neg h])

lemma mem_addKnownTag_known {acc : List Str} {t : TagElem} {a : Str}
    (h : a ∈ addKnownTag acc t) : a ∈ acc ∨ a ∈ KNOWN_ALLERGENS := by
  rcases hct : clean_tag t with _ | c
  · rw [show addKnownTag acc t = acc from by simp [addKnownTag, hct]] at h
    exact Or.inl h
  · by_cases hc : c ≠ [] ∧ c ∈ KNOWN_ALLERGENS
    · rw [show addKnownTag acc t = insertD c acc from by
        simp only [addKnownTag, hct]; rw [if_pos hc]] at h
      rcases mem_insertD.mp h with rfl | h2
      · exact Or.inr hc.2
      · exact Or.inl h2
    · rw [show addKnownTag acc t = acc from by
        simp only [addKnownTag, hct]; rw [if_neg hc]] at h
      exact Or.inl h

lemma mem_explicit_known {f : TagsField} {a : Str}
    (h : a ∈ explicit_product_allergens f) : a ∈ KNOWN_ALLERGENS := by
  have step : ∀ (l : List TagElem), a ∈ l.foldl addKnownTag [] → a ∈ KNOWN_ALLERGENS := by
    intro l hl
    rcases foldl_step_mem addKnownTag (fun _ n => n ∈ KNOWN_ALLERGENS)
        (fun acc t n hn => mem_addKnownTag_known hn) l [] a hl with h1 | ⟨_, _, h2⟩
    · simp at h1
    · exact h2
  rcases f with _ | l | s | _
  · simp [explicit_product_allergens] at h
  · exact step l h
  · exact step _ h
  · simp [explicit_product_allergens] at h

lemma mem_traces_known {f : TagsField} {a : Str}
    (h : a ∈ processed_traces_allergens f) : a ∈ KNOWN_ALLERGENS := by
  have step : ∀ (l : List TagElem), a ∈ l.foldl addKnownTag [] → a ∈ KNOWN_ALLERGENS := by
    intro l hl
    rcases foldl_step_mem addKnownTag (fun _ n => n ∈ KNOWN_ALLERGENS)
        (fun acc t n hn => mem_addKnownTag_known hn) l [] a hl with h1 | ⟨_, _, h2⟩
    · simp at h1
    · exact h2
  rcases f with _ | l | s | _
  · simp [processed_traces_allergens] at h
  · exact step l h
  · exact step _ h
  · simp [processed_traces_allergens] at h

lemma mem_suitable_iff (labels : List Str) (d : Str) :
    d ∈ suitable_diet_prefs labels
      ↔ ∃ p ∈ DIETARY_PREFERENCES_MAP, p.1 = d ∧ p.2.any (fun k => decide (k ∈ labels)) = true := by
  unfold suitable_diet_prefs
  have gen : ∀ (l : List (Str × List Str)) (acc : List Str),
      d ∈ l.foldl (fun acc p => if p.2.any (fun k => decide (k ∈ labels)) then insertD p.1 acc else acc) acc
        ↔ d ∈ acc ∨ ∃ p ∈ l, p.1 = d ∧ p.2.any (fun k => decide (k ∈ labels)) = true := by
    intro l
    induction l with
    | nil => intro acc; simp
    | cons p t ih =>
      intro acc
      rw [List.foldl_cons, ih]
      by_cases hp : p.2.any (fun k => decide (k ∈ labels)) = true
      · rw [if_pos hp]
        rw [mem_insertD]
        constructor
        · rintro ((rfl | h1) | ⟨q, hq, hqd, hqa⟩)
          · exact Or.inr ⟨p, by simp, rfl, hp⟩
          · exact Or.inl h1
          · exact Or.inr ⟨q, by simp [hq], hqd, hqa⟩
        · rintro (h1 | ⟨q, hq, hqd, hqa⟩)
          · exact Or.inl (Or.inr h1)
          · rcases List.mem_cons.mp hq with rfl | hq2
            · exact Or.inl (Or.inl hqd.symm)
            · exact Or.inr ⟨q, hq2, hqd, hqa⟩
      · rw [if_neg hp]
        constructor
        · rintro (h1 | ⟨q, hq, hqd, hqa⟩)
          · exact Or.inl h1
          · exact Or.inr ⟨q, by simp [hq], hqd, hqa⟩
        · rintro (h1 | ⟨q, hq, hqd, hqa⟩)
          · exact Or.inl h1
          · rcases List.mem_cons.mp hq with rfl | hq2
            · exact absurd hqa hp
            · exact Or.inr ⟨q, hq2, hqd, hqa⟩
  rw [gen]
  simp

lemma countStr_le_one_of_nodup {l : List Str} (h : l.Nodup) (a : Str) : countStr l a ≤ 1 := by
  induction l with
  | nil => simp [countStr]
  | cons b t ih =>
    rcases List.nodup_cons.mp h with ⟨hb, ht⟩
    unfold countStr at ih ⊢
    rw [List.countP_cons]
    by_cases hba : b = a
    · have hz : t.countP (fun x => decide (x = a)) = 0 := by
        rw [List.countP_eq_zero]
        intro x hx
        simp only [decide_eq_true_eq]
        rintro rfl
        exact hb (hba ▸ hx)
      simp [hz, hba]
    · simp [hba]
      exact ih ht

lemma countRow_map_inj {l : List Str} {f : Str → Row}
    (hinj : ∀ a b, f a = f b → a = b) (a : Str) :
    countRow (l.map f) (f a) = countStr l a := by
  induction l with
  | nil => simp [countRow, countStr]
  | cons b t ih =>
    unfold countRow countStr at ih ⊢
    simp only [List.map_cons, List.countP_cons, ih]
    by_cases hba : b = a
    · simp [hba]
    · have h2 : f b ≠ f a := fun h => hba (hinj b a h)
      simp [hba, h2]

lemma proxyName_inj {a b code : Str} (h : proxyNameFor a code = proxyNameFor b code) :
    a = b := by
  unfold proxyNameFor at h
  exact List.append_cancel_right (List.append_cancel_right h)

lemma ingLoop_cons (code ing : Str) (written rest : List Str) :
    ingLoop code written (ing :: rest)
      = ((if ing ∈ written then ([] : List Row) else [Row.node ing [] lIngredient]) ++
          (Row.rel rHasIngredient code lProduct ing lIngredient ::
            (isAllergenRowsFor ing ++ conflictRowsFor ing)) ++
          (ingLoop code (if ing ∈ written then written else ing :: written) rest).1,
         (ingLoop code (if ing ∈ written then written else ing :: written) rest).2) := rfl

lemma proxyLoop_cons_explained {code a : Str} {ings : List Str} (written : List Str)
    (rest : List Str) (h : explainedBy ings a = true) :
    proxyLoop code ings written (a :: rest) = proxyLoop code ings written rest := by
  simp [proxyLoop, h]

lemma proxyLoop_cons_new {code a : Str} {ings : List Str} (written : List Str)
    (rest : List Str) (h : explainedBy ings a = false) :
    proxyLoop code ings written (a :: rest)
      = ((if proxyNameFor a code ∈ written then ([] : List Row)
            else [Row.node (proxyNameFor a code) [] lIngredient]) ++
          [Row.rel rHasIngredient code lProduct (proxyNameFor a code) lIngredient,
           Row.rel rIsAllergen (proxyNameFor a code) lIngredient a lAllergen] ++
          (proxyLoop code ings
            (if proxyNameFor a code ∈ written then written
             else proxyNameFor a code :: written) rest).1,
         (proxyLoop code ings
            (if proxyNameFor a code ∈ written then written
             else proxyNameFor a code :: written) rest).2) := by
  simp only [proxyLoop, h]
  simp

lemma countRow_append (l1 l2 : List Row) (t : Row) :
    countRow (l1 ++ l2) t = countRow l1 t + countRow l2 t :=
  List.countP_append _ _ _

lemma countRow_cons (r : Row) (l : List Row) (t : Row) :
    countRow (r :: l) t = countRow l t + (if r = t then 1 else 0) := by
  unfold countRow
  rw [List.countP_cons]
  simp

lemma countRow_nil (t : Row) : countRow [] t = 0 := rfl

lemma countRow_eq_zero {rows : List Row} {t : Row} (h : ∀ row ∈ rows, row ≠ t) :
    countRow rows t = 0 := by
  unfold countRow
  rw [List.countP_eq_zero]
  intro row hr
  simp [h row hr]

lemma countNode_append (l1 l2 : List Row) (lab id : Str) :
    countNode (l1 ++ l2) lab id = countNode l1 lab id + countNode l2 lab id :=
  List.countP_append _ _ _

lemma countNode_cons (r : Row) (l : List Row) (lab id : Str) :
    countNode (r :: l) lab id
      = countNode l lab id
        + (match r with
           | Row.node i _ lb => if i = id ∧ lb = lab then 1 else 0
           | _ => 0) := by
  unfold countNode
  rw [List.countP_cons]
  rcases r with _ | ⟨i, n, lb⟩ | _
  · simp
  · by_cases h1 : i = id
    · by_cases h2 : lb = lab <;> simp [h1, h2]
    · simp [h1]
  · simp

lemma countNode_eq_zero {rows : List Row} {lab id : Str}
    (h : ∀ i n lb, Row.node i n lb ∈ rows → ¬(i = id ∧ lb = lab)) :
    countNode rows lab id = 0 := by
  unfold countNode
  rw [List.countP_eq_zero]
  intro row hr
  rcases row with _ | ⟨i, n, lb⟩ | _
  · simp
  · simp only [Bool.and_eq_true, decide_eq_true_eq, not_and]
    intro h1 h2
    exact absurd ⟨h1, h2⟩ (h i n lb hr)
  · simp

lemma mem_isAllergenRows {ing : Str} {row : Row} (h : row ∈ isAllergenRowsFor ing) :
    ∃ p ∈ INGREDIENT_TO_ALLERGEN_MAP,
      (patMatches p.1 ing = true ∧ p.2 ∈ KNOWN_ALLERGENS)
      ∧ row = Row.rel rIsAllergen ing lIngredient p.2 lAllergen := by
  unfold isAllergenRowsFor at h
  rw [List.mem_flatMap] at h
  obtain ⟨p, hp, hr⟩ := h
  by_cases hc : patMatches p.1 ing = true ∧ p.2 ∈ KNOWN_ALLERGENS
  · rw [if_pos hc] at hr
    simp only [List.mem_singleton] at hr
    exact ⟨p, hp, hc, hr⟩
  · rw [if_neg hc] at hr
    simp at hr

lemma mem_conflictRows {ing : Str} {row : Row} (h : row ∈ conflictRowsFor ing) :
    ∃ p ∈ DIETARY_CONFLICT_MAP,
      ingredientConflicts ing p.2 = true
      ∧ row = Row.rel rConflicts ing lIngredient p.1 lDietPref := by
  unfold conflictRowsFor at h
  rw [List.mem_flatMap] at h
  obtain ⟨p, hp, hr⟩ := h
  by_cases hc : ingredientConflicts ing p.2 = true
  · rw [if_pos hc] at hr
    simp only [List.mem_singleton] at hr
    exact ⟨p, hp, hc, hr⟩
  · rw [if_neg hc] at hr
    simp at hr

lemma ingLoop_rows_mem {code : Str} :
    ∀ (ings written : List Str) (row : Row), row ∈ (ingLoop code written ings).1 →
      ∃ i ∈ ings,
        row = Row.node i [] lIngredient
        ∨ row = Row.rel rHasIngredient code lProduct i lIngredient
        ∨ (∃ a, row = Row.rel rIsAllergen i lIngredient a lAllergen)
        ∨ (∃ d, row = Row.rel rConflicts i lIngredient d lDietPref) := by
  intro ings
  induction ings with
  | nil => intro written row h; simp [ingLoop] at h
  | cons ing rest ih =>
    intro written row h
    rw [ingLoop_cons] at h
    simp only [List.append_assoc, List.mem_append, List.mem_cons] at h
    rcases h with hnode | (rfl | (halg | hconf)) | hrec
    · refine ⟨ing, by simp, Or.inl ?_⟩
      split at hnode
      · simp at hnode
      · simpa using hnode
    · exact ⟨ing, by simp, Or.inr (Or.inl rfl)⟩
    · obtain ⟨p, _, _, hr⟩ := mem_isAllergenRows halg
      exact ⟨ing, by simp, Or.inr (Or.inr (Or.inl ⟨p.2, hr⟩))⟩
    · obtain ⟨p, _, _, hr⟩ := mem_conflictRows hconf
      exact ⟨ing, by simp, Or.inr (Or.inr (Or.inr ⟨p.1, hr⟩))⟩
    · obtain ⟨i, hi, hshape⟩ := ih _ row hrec
      exact ⟨i, by simp [hi], hshape⟩

lemma proxyLoop_rows_mem {code : Str} {ings : List Str} :
    ∀ (expl written : List Str) (row : Row), row ∈ (proxyLoop code ings written expl).1 →
      ∃ a ∈ expl, explainedBy ings a = false ∧
        (row = Row.node (proxyNameFor a code) [] lIngredient
         ∨ row = Row.rel rHasIngredient code lProduct (proxyNameFor a code) lIngredient
         ∨ row = Row.rel rIsAllergen (proxyNameFor a code) lIngredient a lAllergen) := by
  intro expl
  induction expl with
  | nil => intro written row h; simp [proxyLoop] at h
  | cons a rest ih =>
    intro written row h
    by_cases he : explainedBy ings a = true
    · rw [proxyLoop_cons_explained written rest he] at h
      obtain ⟨b, hb, hshape⟩ := ih written row h
      exact ⟨b, by simp [hb], hshape⟩
    · rw [proxyLoop_cons_new written rest (by simpa using he)] at h
      simp only [List.append_assoc, List.mem_append, List.mem_cons] at h
      rcases h with hnode | (rfl | (rfl | hfalse)) | hrec
      · refine ⟨a, by simp, by simpa using he, Or.inl ?_⟩
        split at hnode
        · simp at hnode
        · simpa using hnode
      · exact ⟨a, by simp, by simpa using he, Or.inr (Or.inl rfl)⟩
      · exact ⟨a, by simp, by simpa using he, Or.inr (Or.inr rfl)⟩
      · simp at hfalse
      · obtain ⟨b, hb, hshape⟩ := ih _ row hrec
        exact ⟨b, by simp [hb], hshape⟩

lemma countStr_eq_ind {l : List Str} {a : Str} (h : l.Nodup) :
    countStr l a = if a ∈ l then 1 else 0 := by
  induction l with
  | nil => simp [countStr]
  | cons b t ih =>
    rcases List.nodup_cons.mp h with ⟨hb, ht⟩
    unfold countStr at ih ⊢
    rw [List.countP_cons, ih ht]
    by_cases hba : b = a
    · subst hba
      have hz : b ∉ t := hb
      simp [hz]
    · by_cases hat : a ∈ t <;> simp [hba, hat, Ne.symm hba]

lemma countRow_isAllergenRows (ing a : Str) :
    countRow (isAllergenRowsFor ing) (Row.rel rIsAllergen ing lIngredient a lAllergen)
      = INGREDIENT_TO_ALLERGEN_MAP.countP
          (fun p => decide ((patMatches p.1 ing = true ∧ p.2 ∈ KNOWN_ALLERGENS) ∧ p.2 = a)) := by
  unfold isAllergenRowsFor
  generalize INGREDIENT_TO_ALLERGEN_MAP = l
  induction l with
  | nil => simp [countRow]
  | cons p t ih =>
    rw [List.flatMap_cons, countRow_append, List.countP_cons, ih]
    by_cases hc : patMatches p.1 ing = true ∧ p.2 ∈ KNOWN_ALLERGENS
    · rw [if_pos hc]
      by_cases ha : p.2 = a
      · subst ha
        rw [countRow_cons, countRow_nil, if_pos rfl, if_pos (by simp [hc])]
        omega
      · have hne : Row.rel rIsAllergen ing lIngredient p.2 lAllergen
            ≠ Row.rel rIsAllergen ing lIngredient a lAllergen := by
          intro hrow
          exact ha (by injection hrow)
        rw [countRow_cons, countRow_nil, if_neg hne,
          if_neg (by simp only [decide_eq_true_eq]; exact fun hx => ha hx.2)]
        omega
    · rw [if_neg hc, countRow_nil,
        if_neg (by simp only [decide_eq_true_eq]; exact fun hx => hc hx.1)]
      omega

lemma countRow_conflictRows_le (ing d : Str) :
    countRow (conflictRowsFor ing) (Row.rel rConflicts ing lIngredient d lDietPref) ≤ 1 := by
  unfold conflictRowsFor
  suffices gen : ∀ l : List (Str × List Str), (l.map Prod.fst).Nodup →
      countRow (l.flatMap fun p =>
          if ingredientConflicts ing p.2 then
            [Row.rel rConflicts ing lIngredient p.1 lDietPref]
          else [])
        (Row.rel rConflicts ing lIngredient d lDietPref) ≤ 1 by
    exact gen DIETARY_CONFLICT_MAP (by decide)
  intro l hnd
  induction l with
  | nil => simp [countRow]
  | cons p t ih =>
    rw [List.flatMap_cons, countRow_append]
    have hnd' : (p.1 :: t.map Prod.fst).Nodup := by simpa using hnd
    rcases List.nodup_cons.mp hnd' with ⟨hp, ht⟩
    by_cases hpd : p.1 = d
    · have htail :
          countRow (t.flatMap fun p =>
              if ingredientConflicts ing p.2 then
                [Row.rel rConflicts ing lIngredient p.1 lDietPref]
              else [])
            (Row.rel rConflicts ing lIngredient d lDietPref) = 0 := by
        refine countRow_eq_zero ?_
        intro row hrow hrt
        rw [List.mem_flatMap] at hrow
        obtain ⟨q, hq, hrq⟩ := hrow
        by_cases hcq : ingredientConflicts ing q.2 = true
        · rw [if_pos hcq] at hrq
          simp only [List.mem_singleton] at hrq
          subst hrq
          have : q.1 = d := by injection hrt
          exact hp (hpd ▸ this ▸ List.mem_map_of_mem Prod.fst hq)
        · rw [if_neg hcq] at hrq
          simp at hrq
      rw [htail]
      split
      · rw [countRow_cons, countRow_nil]
        split <;> omega
      · simp [countRow]
    · have hhead :
          countRow (if ingredientConflicts ing p.2 then
              [Row.rel rConflicts ing lIngredient p.1 lDietPref]
            else [])
            (Row.rel rConflicts ing lIngredient d lDietPref) = 0 := by
        split
        · refine countRow_eq_zero ?_
          intro row hrow
          simp only [List.mem_singleton] at hrow
          subst hrow
          intro hrt
          exact hpd (by injection hrt)
        · simp [countRow]
      rw [hhead]
      simpa using ih ht

lemma ingLoop_countRow_isa {code ing a : Str} :
    ∀ (ings written : List Str), ings.Nodup →
      countRow (ingLoop code written ings).1 (Row.rel rIsAllergen ing lIngredient a lAllergen)
        = if ing ∈ ings then
            countRow (isAllergenRowsFor ing) (Row.rel rIsAllergen ing lIngredient a lAllergen)
          else 0 := by
  intro ings
  induction ings with
  | nil => intro written _; simp [ingLoop, countRow]
  | cons i0 rest ih =>
    intro written hnd
    rcases List.nodup_cons.mp hnd with ⟨h0, hrest⟩
    rw [ingLoop_cons]
    simp only []
    rw [countRow_append, countRow_append, countRow_cons, countRow_append]
    have hA : countRow (if i0 ∈ written then ([] : List Row)
        else [Row.node i0 [] lIngredient])
        (Row.rel rIsAllergen ing lIngredient a lAllergen) = 0 := by
      split
      · simp [countRow]
      · rw [countRow_cons, countRow_nil]
        simp
    have hHas : (Row.rel rHasIngredient code lProduct i0 lIngredient
        = Row.rel rIsAllergen ing lIngredient a lAllergen) = False := by
      simp only [eq_iff_iff, iff_false]
      intro hrow
      have : rHasIngredient = rIsAllergen := by injection hrow
      exact absurd this (by decide)
    have hConf : countRow (conflictRowsFor i0)
        (Row.rel rIsAllergen ing lIngredient a lAllergen) = 0 := by
      refine countRow_eq_zero ?_
      intro row hrow hrt
      obtain ⟨p, _, _, hr⟩ := mem_conflictRows hrow
      subst hr
      have : rConflicts = rIsAllergen := by injection hrt
      exact absurd this (by decide)
    rw [hA, hConf, ih _ hrest]
    by_cases hii : i0 = ing
    · subst hii
      have hnr : i0 ∉ rest := h0
      simp [hnr, hHas]
    · have hAlg : countRow (isAllergenRowsFor i0)
          (Row.rel rIsAllergen ing lIngredient a lAllergen) = 0 := by
        refine countRow_eq_zero ?_
        intro row hrow hrt
        obtain ⟨p, _, _, hr⟩ := mem_isAllergenRows hrow
        subst hr
        exact hii (by injection hrt)
      rw [hAlg]
      by_cases hmem : ing ∈ rest <;> simp [hmem, hii, Ne.symm hii, hHas]

lemma ingLoop_countRow_conf {code ing d : Str} :
    ∀ (ings written : List Str), ings.Nodup →
      countRow (ingLoop code written ings).1 (Row.rel rConflicts ing lIngredient d lDietPref)
        = if ing ∈ ings then
            countRow (conflictRowsFor ing) (Row.rel rConflicts ing lIngredient d lDietPref)
          else 0 := by
  intro ings
  induction ings with
  | nil => intro written _; simp [ingLoop, countRow]
  | cons i0 rest ih =>
    intro written hnd
    rcases List.nodup_cons.mp hnd with ⟨h0, hrest⟩
    rw [ingLoop_cons]
    simp only []
    rw [countRow_append, countRow_append, countRow_cons, countRow_append]
    have hA : countRow (if i0 ∈ written then ([] : List Row)
        else [Row.node i0 [] lIngredient])
        (Row.rel rConflicts ing lIngredient d lDietPref) = 0 := by
      split
      · simp [countRow]
      · rw [countRow_cons, countRow_nil]
        simp
    have hHas : (Row.rel rHasIngredient code lProduct i0 lIngredient
        = Row.rel rConflicts ing lIngredient d lDietPref) = False := by
      simp only [eq_iff_iff, iff_false]
      intro hrow
      have : rHasIngredient = rConflicts := by injection hrow
      exact absurd this (by decide)
    have hAlg0 : countRow (isAllergenRowsFor i0)
        (Row.rel rConflicts ing lIngredient d lDietPref) = 0 := by
      refine countRow_eq_zero ?_
      intro row hrow hrt
      obtain ⟨p, _, _, hr⟩ := mem_isAllergenRows hrow
      subst hr
      have : rIsAllergen = rConflicts := by injection hrt
      exact absurd this (by decide)
    rw [hA, hAlg0, ih _ hrest]
    by_cases hii : i0 = ing
    · subst hii
      have hnr : i0 ∉ rest := h0
      simp [hnr, hHas]
    · have hConf : countRow (conflictRowsFor i0)
          (Row.rel rConflicts ing lIngredient d lDietPref) = 0 := by
        refine countRow_eq_zero ?_
        intro row hrow hrt
        obtain ⟨p, _, _, hr⟩ := mem_conflictRows hrow
        subst hr
        exact hii (by injection hrt)
      rw [hConf]
      by_cases hmem : ing ∈ rest <;> simp [hmem, hii, Ne.symm hii, hHas]

lemma countRow_pos_mem {rows : List Row} {t : Row} (h : 0 < countRow rows t) : t ∈ rows := by
  unfold countRow at h
  rw [List.countP_pos_iff] at h
  obtain ⟨row, hrow, hp⟩ := h
  simp only [decide_eq_true_eq] at hp
  exact hp ▸ hrow

lemma countRow_map_ne {l : List Str} {mk : Str → Row} {t : Row} (h : ∀ x, mk x ≠ t) :
    countRow (l.map mk) t = 0 := by
  refine countRow_eq_zero ?_
  intro row hrow
  obtain ⟨x, _, rfl⟩ := List.mem_map.mp hrow
  exact h x

lemma ingLoop_written_mem {code : Str} :
    ∀ (ings written : List Str) (x : Str),
      x ∈ (ingLoop code written ings).2 → x ∈ written ∨ x ∈ ings := by
  intro ings
  induction ings with
  | nil => intro written x h; exact Or.inl h
  | cons i0 rest ih =>
    intro written x h
    rw [ingLoop_cons] at h
    simp only [] at h
    rcases ih _ x h with h1 | h2
    · split at h1
      · exact Or.inl h1
      · rcases List.mem_cons.mp h1 with rfl | h3
        · exact Or.inr (by simp)
        · exact Or.inl h3
    · exact Or.inr (by simp [h2])

lemma proxyLoop_countRow_has {code a : Str} {ings : List Str} :
    ∀ (expl written : List Str), expl.Nodup →
      countRow (proxyLoop code ings written expl).1
          (Row.rel rHasIngredient code lProduct (proxyNameFor a code) lIngredient)
        = if a ∈ expl ∧ explainedBy ings a = false then 1 else 0 := by
  intro expl
  induction expl with
  | nil => intro written _; simp [proxyLoop, countRow]
  | cons a0 rest ih =>
    intro written hnd
    rcases List.nodup_cons.mp hnd with ⟨h0, hrest⟩
    by_cases he : explainedBy ings a0 = true
    · rw [proxyLoop_cons_explained written rest he, ih _ hrest]
      by_cases haa : a = a0
      · subst haa
        simp [h0, he]
      · simp [List.mem_cons, haa]
    · have he' : explainedBy ings a0 = false := by simpa using he
      rw [proxyLoop_cons_new written rest he']
      simp only []
      rw [countRow_append, countRow_append, countRow_cons, countRow_cons, countRow_nil]
      have hA : countRow (if proxyNameFor a0 code ∈ written then ([] : List Row)
          else [Row.node (proxyNameFor a0 code) [] lIngredient])
          (Row.rel rHasIngredient code lProduct (proxyNameFor a code) lIngredient) = 0 := by
        split
        · simp [countRow]
        · rw [countRow_cons, countRow_nil]
          simp
      have hIsa : (Row.rel rIsAllergen (proxyNameFor a0 code) lIngredient a0 lAllergen
          = Row.rel rHasIngredient code lProduct (proxyNameFor a code) lIngredient) = False := by
        simp only [eq_iff_iff, iff_false]
        intro hrow
        have : rIsAllergen = rHasIngredient := by injection hrow
        exact absurd this (by decide)
      rw [hA, ih _ hrest]
      by_cases haa : a = a0
      · subst haa
        have hnr : a ∉ rest := h0
        simp [hnr, he', hIsa]
      · have hne : (Row.rel rHasIngredient code lProduct (proxyNameFor a0 code) lIngredient
            = Row.rel rHasIngredient code lProduct (proxyNameFor a code) lIngredient) = False := by
          simp only [eq_iff_iff, iff_false]
          intro hrow
          have hpn : proxyNameFor a0 code = proxyNameFor a code := by injection hrow
          exact haa (proxyName_inj hpn).symm
        by_cases hmem : a ∈ rest <;> simp [hmem, List.mem_cons, haa, hIsa, hne]

lemma proxyLoop_countRow_isa {code a : Str} {ings : List Str} :
    ∀ (expl written : List Str), expl.Nodup →
      countRow (proxyLoop code ings written expl).1
          (Row.rel rIsAllergen (proxyNameFor a code) lIngredient a lAllergen)
        = if a ∈ expl ∧ explainedBy ings a = false then 1 else 0 := by
  intro expl
  induction expl with
  | nil => intro written _; simp [proxyLoop, countRow]
  | cons a0 rest ih =>
    intro written hnd
    rcases List.nodup_cons.mp hnd with ⟨h0, hrest⟩
    by_cases he : explainedBy ings a0 = true
    · rw [proxyLoop_cons_explained written rest he, ih _ hrest]
      by_cases haa : a = a0
      · subst haa
        simp [h0, he]
      · simp [List.mem_cons, haa]
    · have he' : explainedBy ings a0 = false := by simpa using he
      rw [proxyLoop_cons_new written rest he']
      simp only []
      rw [countRow_append, countRow_append, countRow_cons, countRow_cons, countRow_nil]
      have hA : countRow (if proxyNameFor a0 code ∈ written then ([] : List Row)
          else [Row.node (proxyNameFor a0 code) [] lIngredient])
          (Row.rel rIsAllergen (proxyNameFor a code) lIngredient a lAllergen) = 0 := by
        split
        · simp [countRow]
        · rw [countRow_cons, countRow_nil]
          simp
      have hHas : (Row.rel rHasIngredient code lProduct (proxyNameFor a0 code) lIngredient
          = Row.rel rIsAllergen (proxyNameFor a code) lIngredient a lAllergen) = False := by
        simp only [eq_iff_iff, iff_false]
        intro hrow
        have : rHasIngredient = rIsAllergen := by injection hrow
        exact absurd this (by decide)
      rw [hA, ih _ hrest]
      by_cases haa : a = a0
      · subst haa
        have hnr : a ∉ rest := h0
        simp [hnr, he', hHas]
      · have hne : (Row.rel rIsAllergen (proxyNameFor a0 code) lIngredient a0 lAllergen
            = Row.rel rIsAllergen (proxyNameFor a code) lIngredient a lAllergen) = False := by
          simp only [eq_iff_iff, iff_false]
          intro hrow
          have : a0 = a := by injection hrow
          exact haa this.symm
        by_cases hmem : a ∈ rest <;> simp [hmem, List.mem_cons, haa, hne] <;>
          exact fun h1 _ _ _ => absurd h1 (by decide)

lemma proxyLoop_node_mem {code a : Str} {ings : List Str}
    (hexp : explainedBy ings a = false) :
    ∀ (expl written : List Str), a ∈ expl → proxyNameFor a code ∉ written →
      Row.node (proxyNameFor a code) [] lIngredient ∈ (proxyLoop code ings written expl).1 := by
  intro expl
  induction expl with
  | nil => intro written h _; simp at h
  | cons a0 rest ih =>
    intro written hmem hw
    by_cases he : explainedBy ings a0 = true
    · have hmem' : a ∈ rest := by
        rcases List.mem_cons.mp hmem with rfl | h
        · rw [hexp] at he; cases he
        · exact h
      rw [proxyLoop_cons_explained written rest he]
      exact ih written hmem' hw
    · have he' : explainedBy ings a0 = false := by simpa using he
      rw [proxyLoop_cons_new written rest he']
      simp only []
      by_cases haa : a = a0
      · subst haa
        simp [List.mem_append, hw]
      · have hmem' : a ∈ rest := by
          rcases List.mem_cons.mp hmem with rfl | h
          · exact absurd rfl haa
          · exact h
        have hw1 : proxyNameFor a code
            ∉ (if proxyNameFor a0 code ∈ written then written
               else proxyNameFor a0 code :: written) := by
          split
          · exact hw
          · intro hmm
            rcases List.mem_cons.mp hmm with hpn | h2
            · exact haa (proxyName_inj hpn)
            · exact hw h2
        have hrec := ih _ hmem' hw1
        simp only [List.append_assoc, List.mem_append]
        exact Or.inr (Or.inr hrec)

lemma processRecord_valid_rows {st : GenState} {r : Record} {code : Str}
    (h : validCode r.code = some code) :
    (processRecord st r).1
      = Row.node code (productDisplayName r code) lProduct ::
          ((ingLoop code st.written_ingredients
              (parse_ingredients_from_text (chosenIngredientsText r))).1
            ++ ((proxyLoop code (parse_ingredients_from_text (chosenIngredientsText r))
                  (ingLoop code st.written_ingredients
                    (parse_ingredients_from_text (chosenIngredientsText r))).2
                  (explicit_product_allergens r.allergens_tags)).1
            ++ (((processed_traces_allergens r.traces_tags).map fun a =>
                  Row.rel rMayContain code lProduct a lAllergen)
            ++ ((suitable_diet_prefs (product_dietary_labels r.labels_tags)).map fun d =>
                  Row.rel rSuitable code lProduct d lDietPref)))) := by
  simp [processRecord, h]

lemma countRow_ingLoop_eq_zero {code : Str} {target : Row} {ings written : List Str}
    (h : ∀ i ∈ ings,
      Row.node i [] lIngredient ≠ target
      ∧ Row.rel rHasIngredient code lProduct i lIngredient ≠ target
      ∧ (∀ a, Row.rel rIsAllergen i lIngredient a lAllergen ≠ target)
      ∧ (∀ d, Row.rel rConflicts i lIngredient d lDietPref ≠ target)) :
    countRow (ingLoop code written ings).1 target = 0 := by
  refine countRow_eq_zero ?_
  intro row hrow
  obtain ⟨i, hi, hshape⟩ := ingLoop_rows_mem ings written row hrow
  obtain ⟨h1, h2, h3, h4⟩ := h i hi
  rcases hshape with rfl | rfl | ⟨a, rfl⟩ | ⟨d, rfl⟩
  · exact h1
  · exact h2
  · exact h3 a
  · exact h4 d

lemma countRow_proxyLoop_eq_zero {code : Str} {target : Row} {ings expl written : List Str}
    (h : ∀ a ∈ expl, explainedBy ings a = false →
      Row.node (proxyNameFor a code) [] lIngredient ≠ target
      ∧ Row.rel rHasIngredient code lProduct (proxyNameFor a code) lIngredient ≠ target
      ∧ Row.rel rIsAllergen (proxyNameFor a code) lIngredient a lAllergen ≠ target) :
    countRow (proxyLoop code ings written expl).1 target = 0 := by
  refine countRow_eq_zero ?_
  intro row hrow
  obtain ⟨a, ha, hexp, hshape⟩ := proxyLoop_rows_mem expl written row hrow
  obtain ⟨h1, h2, h3⟩ := h a ha hexp
  rcases hshape with rfl | rfl | rfl
  · exact h1
  · exact h2
  · exact h3

/-- Claim C3, counterexample: the claim says at most one IS_ALLERGEN row is
written per (ingredient, allergen) pair even when several keyword patterns
justify it.  For the ingredient "wheat flour" both the wheat and the flour
patterns map to en:gluten and the loop of lines 202-206 deduplicates
nothing, so two identical IS_ALLERGEN rows are written. -/
theorem claim_c3_counterexample :
    ¬ (countRow (processRecord initState recWheatFlour).1
        (Row.rel rIsAllergen ("wheat flour".toList) lIngredient
          ("en:gluten".toList) lAllergen) ≤ 1) := by
  decide

/-- Claim C3 as amended: per record and parsed ingredient, at most one
CONFLICTS_WITH_DIET row is written per (ingredient, preference) pair (the
loop of lines 208-217 breaks after the first match), but IS_ALLERGEN rows
are written once per matching keyword pattern (lines 202-206), so a pair
receives as many rows as there are patterns that match the ingredient and
map to that allergen. -/
theorem claim_c3_amended (st : GenState) (r : Record) (code ing d a : Str)
    (hc : validCode r.code = some code)
    (hing : ing ∈ parse_ingredients_from_text (chosenIngredientsText r)) :
    countRow (processRecord st r).1 (Row.rel rConflicts ing lIngredient d lDietPref) ≤ 1
    ∧ countRow (processRecord st r).1 (Row.rel rIsAllergen ing lIngredient a lAllergen)
        = INGREDIENT_TO_ALLERGEN_MAP.countP
            (fun p => decide ((patMatches p.1 ing = true ∧ p.2 ∈ KNOWN_ALLERGENS) ∧ p.2 = a)) := by
  have hrows := @processRecord_valid_rows st r code hc
  have hnodup := nodup_parse (chosenIngredientsText r)
  have hnocolon := parse_no_colon hing
  constructor
  · rw [hrows, countRow_cons, countRow_append, countRow_append, countRow_append]
    have hA := @ingLoop_countRow_conf code ing d
      (parse_ingredients_from_text (chosenIngredientsText r)) st.written_ingredients hnodup
    rw [if_pos hing] at hA
    have hB : countRow (proxyLoop code (parse_ingredients_from_text (chosenIngredientsText r))
        (ingLoop code st.written_ingredients
          (parse_ingredients_from_text (chosenIngredientsText r))).2
        (explicit_product_allergens r.allergens_tags)).1
        (Row.rel rConflicts ing lIngredient d lDietPref) = 0 := by
      refine countRow_proxyLoop_eq_zero ?_
      intro b _ _
      refine ⟨by simp, ?_, ?_⟩
      · intro heq
        have h' : rHasIngredient = rConflicts := by injection heq
        exact absurd h' (by decide)
      · intro heq
        have h' : rIsAllergen = rConflicts := by injection heq
        exact absurd h' (by decide)
    have hC : countRow ((processed_traces_allergens r.traces_tags).map fun x =>
        Row.rel rMayContain code lProduct x lAllergen)
        (Row.rel rConflicts ing lIngredient d lDietPref) = 0 := by
      refine countRow_map_ne ?_
      intro x heq
      have h' : rMayContain = rConflicts := by injection heq
      exact absurd h' (by decide)
    have hD : countRow ((suitable_diet_prefs (product_dietary_labels r.labels_tags)).map fun x =>
        Row.rel rSuitable code lProduct x lDietPref)
        (Row.rel rConflicts ing lIngredient d lDietPref) = 0 := by
      refine countRow_map_ne ?_
      intro x heq
      have h' : rSuitable = rConflicts := by injection heq
      exact absurd h' (by decide)
    rw [hA, hB, hC, hD]
    have hbase := countRow_conflictRows_le ing d
    have hprod : (Row.node code (productDisplayName r code) lProduct
        = Row.rel rConflicts ing lIngredient d lDietPref) = False := by
      simp
    simp only [hprod, if_false]
    omega
  · rw [hrows, countRow_cons, countRow_append, countRow_append, countRow_append]
    have hA := @ingLoop_countRow_isa code ing a
      (parse_ingredients_from_text (chosenIngredientsText r)) st.written_ingredients hnodup
    rw [if_pos hing] at hA
    have hB : countRow (proxyLoop code (parse_ingredients_from_text (chosenIngredientsText r))
        (ingLoop code st.written_ingredients
          (parse_ingredients_from_text (chosenIngredientsText r))).2
        (explicit_product_allergens r.allergens_tags)).1
        (Row.rel rIsAllergen ing lIngredient a lAllergen) = 0 := by
      refine countRow_proxyLoop_eq_zero ?_
      intro b hb _
      refine ⟨by simp, ?_, ?_⟩
      · intro heq
        have h' : rHasIngredient = rIsAllergen := by injection heq
        exact absurd h' (by decide)
      · intro heq
        have hfrom : proxyNameFor b code = ing := by injection heq
        have hbk := mem_explicit_known hb
        have hcol : ':' ∈ proxyNameFor b code := by
          unfold proxyNameFor
          exact List.mem_append.mpr (Or.inl (List.mem_append.mpr (Or.inl (known_has_colon b hbk))))
        exact hnocolon (hfrom ▸ hcol)
    have hC : countRow ((processed_traces_allergens r.traces_tags).map fun x =>
        Row.rel rMayContain code lProduct x lAllergen)
        (Row.rel rIsAllergen ing lIngredient a lAllergen) = 0 := by
      refine countRow_map_ne ?_
      intro x heq
      have h' : rMayContain = rIsAllergen := by injection heq
      exact absurd h' (by decide)
    have hD : countRow ((suitable_diet_prefs (product_dietary_labels r.labels_tags)).map fun x =>
        Row.rel rSuitable code lProduct x lDietPref)
        (Row.rel rIsAllergen ing lIngredient a lAllergen) = 0 := by
      refine countRow_map_ne ?_
      intro x heq
      have h' : rSuitable = rIsAllergen := by injection heq
      exact absurd h' (by decide)
    rw [hA, hB, hC, hD, countRow_isAllergenRows]
    have hprod : (Row.node code (productDisplayName r code) lProduct
        = Row.rel rIsAllergen ing lIngredient a lAllergen) = False := by
      simp
    simp only [hprod, if_false]
    omega

/-- Claim C3, witness: the amended statement evaluated on the wheat-flour
record, whose (wheat flour, en:gluten) pair is justified by exactly the
two patterns wheat and flour. -/
theorem claim_c3_amended_witness :
    countRow (processRecord initState recWheatFlour).1
        (Row.rel rConflicts ("wheat flour".toList) lIngredient
          ("gluten_free".toList) lDietPref) ≤ 1
    ∧ countRow (processRecord initState recWheatFlour).1
        (Row.rel rIsAllergen ("wheat flour".toList) lIngredient
          ("en:gluten".toList) lAllergen)
        = INGREDIENT_TO_ALLERGEN_MAP.countP
            (fun p => decide ((patMatches p.1 ("wheat flour".toList) = true
                ∧ p.2 ∈ KNOWN_ALLERGENS) ∧ p.2 = "en:gluten".toList)) :=
  claim_c3_amended initState recWheatFlour ("1".toList) ("wheat flour".toList)
    ("gluten_free".toList) ("en:gluten".toList) (by decide) (by decide)

/-- Claim C10: within a single record, tag fields are reduced to sets
before rows are written, so even with duplicated tags at most one
MAY_CONTAIN_ALLERGEN row is written per (product, allergen) pair, at most
one IS_SUITABLE_FOR row per (product, preference) pair, and at most one
proxy HAS_INGREDIENT row per (product, allergen) pair. -/
theorem claim_c10_tag_dedup (st : GenState) (r : Record) (code a d : Str)
    (hc : validCode r.code = some code) (ha : a ∈ KNOWN_ALLERGENS) :
    countRow (processRecord st r).1 (Row.rel rMayContain code lProduct a lAllergen) ≤ 1
    ∧ countRow (processRecord st r).1 (Row.rel rSuitable code lProduct d lDietPref) ≤ 1
    ∧ countRow (processRecord st r).1
        (Row.rel rHasIngredient code lProduct (proxyNameFor a code) lIngredient) ≤ 1 := by
  have hrows := @processRecord_valid_rows st r code hc
  have hcolPn : ':' ∈ proxyNameFor a code := by
    unfold proxyNameFor
    exact List.mem_append.mpr (Or.inl (List.mem_append.mpr (Or.inl (known_has_colon a ha))))
  refine ⟨?_, ?_, ?_⟩
  · rw [hrows, countRow_cons, countRow_append, countRow_append, countRow_append]
    have hA : countRow (ingLoop code st.written_ingredients
        (parse_ingredients_from_text (chosenIngredientsText r))).1
        (Row.rel rMayContain code lProduct a lAllergen) = 0 := by
      refine countRow_ingLoop_eq_zero ?_
      intro i _
      refine ⟨by simp, ?_, ?_, ?_⟩
      · intro heq
        have h' : rHasIngredient = rMayContain := by injection heq
        exact absurd h' (by decide)
      · intro x heq
        have h' : rIsAllergen = rMayContain := by injection heq
        exact absurd h' (by decide)
      · intro x heq
        have h' : rConflicts = rMayContain := by injection heq
        exact absurd h' (by decide)
    have hB : countRow (proxyLoop code (parse_ingredients_from_text (chosenIngredientsText r))
        (ingLoop code st.written_ingredients
          (parse_ingredients_from_text (chosenIngredientsText r))).2
        (explicit_product_allergens r.allergens_tags)).1
        (Row.rel rMayContain code lProduct a lAllergen) = 0 := by
      refine countRow_proxyLoop_eq_zero ?_
      intro b _ _
      refine ⟨by simp, ?_, ?_⟩
      · intro heq
        have h' : rHasIngredient = rMayContain := by injection heq
        exact absurd h' (by decide)
      · intro heq
        have h' : rIsAllergen = rMayContain := by injection heq
        exact absurd h' (by decide)
    have hD : countRow ((suitable_diet_prefs (product_dietary_labels r.labels_tags)).map fun x =>
        Row.rel rSuitable code lProduct x lDietPref)
        (Row.rel rMayContain code lProduct a lAllergen) = 0 := by
      refine countRow_map_ne ?_
      intro x heq
      have h' : rSuitable = rMayContain := by injection heq
      exact absurd h' (by decide)
    have hC : countRow ((processed_traces_allergens r.traces_tags).map fun x =>
          Row.rel rMayContain code lProduct x lAllergen)
          (Row.rel rMayContain code lProduct a lAllergen) ≤ 1 := by
      have hinj : ∀ x y : Str,
          (fun x => Row.rel rMayContain code lProduct x lAllergen) x
            = (fun x => Row.rel rMayContain code lProduct x lAllergen) y → x = y := by
        intro x y heq
        injection heq
      have := countRow_map_inj (l := processed_traces_allergens r.traces_tags) hinj a
      rw [this]
      exact countStr_le_one_of_nodup (nodup_traces _) a
    have hprod : (Row.node code (productDisplayName r code) lProduct
        = Row.rel rMayContain code lProduct a lAllergen) = False := by simp
    rw [hA, hB, hD]
    simp only [hprod, if_false]
    omega
  · rw [hrows, countRow_cons, countRow_append, countRow_append, countRow_append]
    have hA : countRow (ingLoop code st.written_ingredients
        (parse_ingredients_from_text (chosenIngredientsText r))).1
        (Row.rel rSuitable code lProduct d lDietPref) = 0 := by
      refine countRow_ingLoop_eq_zero ?_
      intro i _
      refine ⟨by simp, ?_, ?_, ?_⟩
      · intro heq
        have h' : rHasIngredient = rSuitable := by injection heq
        exact absurd h' (by decide)
      · intro x heq
        have h' : rIsAllergen = rSuitable := by injection heq
        exact absurd h' (by decide)
      · intro x heq
        have h' : rConflicts = rSuitable := by injection heq
        exact absurd h' (by decide)
    have hB : countRow (proxyLoop code (parse_ingredients_from_text (chosenIngredientsText r))
        (ingLoop code st.written_ingredients
          (parse_ingredients_from_text (chosenIngredientsText r))).2
        (explicit_product_allergens r.allergens_tags)).1
        (Row.rel rSuitable code lProduct d lDietPref) = 0 := by
      refine countRow_proxyLoop_eq_zero ?_
      intro b _ _
      refine ⟨by simp, ?_, ?_⟩
      · intro heq
        have h' : rHasIngredient = rSuitable := by injection heq
        exact absurd h' (by decide)
      · intro heq
        have h' : rIsAllergen = rSuitable := by injection heq
        exact absurd h' (by decide)
    have hC : countRow ((processed_traces_allergens r.traces_tags).map fun x =>
        Row.rel rMayContain code lProduct x lAllergen)
        (Row.rel rSuitable code lProduct d lDietPref) = 0 := by
      refine countRow_map_ne ?_
      intro x heq
      have h' : rMayContain = rSuitable := by injection heq
      exact absurd h' (by decide)
    have hD : countRow ((suitable_diet_prefs (product_dietary_labels r.labels_tags)).map fun x =>
          Row.rel rSuitable code lProduct x lDietPref)
          (Row.rel rSuitable code lProduct d lDietPref) ≤ 1 := by
      have hinj : ∀ x y : Str,
          (fun x => Row.rel rSuitable code lProduct x lDietPref) x
            = (fun x => Row.rel rSuitable code lProduct x lDietPref) y → x = y := by
        intro x y heq
        injection heq
      have := countRow_map_inj (l := suitable_diet_prefs (product_dietary_labels r.labels_tags)) hinj d
      rw [this]
      exact countStr_le_one_of_nodup (nodup_suitable _) d
    have hprod : (Row.node code (productDisplayName r code) lProduct
        = Row.rel rSuitable code lProduct d lDietPref) = False := by simp
    rw [hA, hB, hC]
    simp only [hprod, if_false]
    omega
  · rw [hrows, countRow_cons, countRow_append, countRow_append, countRow_append]
    have hA : countRow (ingLoop code st.written_ingredients
        (parse_ingredients_from_text (chosenIngredientsText r))).1
        (Row.rel rHasIngredient code lProduct (proxyNameFor a code) lIngredient) = 0 := by
      refine countRow_ingLoop_eq_zero ?_
      intro i hi
      refine ⟨by simp, ?_, ?_, ?_⟩
      · intro heq
        have h' : i = proxyNameFor a code := by injection heq
        exact parse_no_colon hi (h' ▸ hcolPn)
      · intro x heq
        have h' : rIsAllergen = rHasIngredient := by injection heq
        exact absurd h' (by decide)
      · intro x heq
        have h' : rConflicts = rHasIngredient := by injection heq
        exact absurd h' (by decide)
    have hB : countRow (proxyLoop code (parse_ingredients_from_text (chosenIngredientsText r))
        (ingLoop code st.written_ingredients
          (parse_ingredients_from_text (chosenIngredientsText r))).2
        (explicit_product_allergens r.allergens_tags)).1
        (Row.rel rHasIngredient code lProduct (proxyNameFor a code) lIngredient) ≤ 1 := by
      rw [proxyLoop_countRow_has _ _ (nodup_explicit r.allergens_tags)]
      split <;> omega
    have hC : countRow ((processed_traces_allergens r.traces_tags).map fun x =>
        Row.rel rMayContain code lProduct x lAllergen)
        (Row.rel rHasIngredient code lProduct (proxyNameFor a code) lIngredient) = 0 := by
      refine countRow_map_ne ?_
      intro x heq
      have h' : rMayContain = rHasIngredient := by injection heq
      exact absurd h' (by decide)
    have hD : countRow ((suitable_diet_prefs (product_dietary_labels r.labels_tags)).map fun x =>
        Row.rel rSuitable code lProduct x lDietPref)
        (Row.rel rHasIngredient code lProduct (proxyNameFor a code) lIngredient) = 0 := by
      refine countRow_map_ne ?_
      intro x heq
      have h' : rSuitable = rHasIngredient := by injection heq
      exact absurd h' (by decide)
    have hprod : (Row.node code (productDisplayName r code) lProduct
        = Row.rel rHasIngredient code lProduct (proxyNameFor a code) lIngredient) = False := by
      simp
    rw [hA, hC, hD]
    simp only [hprod, if_false]
    omega

/-- Claim C10, witness: the dedup behaviour on a record whose traces list
holds the milk tag twice (in two spellings) and whose labels list holds
two synonyms of the vegan preference. -/
theorem claim_c10_witness :
    countRow (processRecord initState recDupTags).1
        (Row.rel rMayContain ("9".toList) lProduct ("en:milk".toList) lAllergen) ≤ 1
    ∧ countRow (processRecord initState recDupTags).1
        (Row.rel rSuitable ("9".toList) lProduct ("vegan".toList) lDietPref) ≤ 1
    ∧ countRow (processRecord initState recDupTags).1
        (Row.rel rHasIngredient ("9".toList) lProduct
          (proxyNameFor ("en:milk".toList) ("9".toList)) lIngredient) ≤ 1 :=
  claim_c10_tag_dedup initState recDupTags ("9".toList) ("en:milk".toList)
    ("vegan".toList) (by decide) (by decide)

/-- Claim C6: IS_SUITABLE_FOR edges are derived only from label tags: for a
valid record, a preference receives exactly one IS_SUITABLE_FOR row iff it
is a catalog preference and some cleaned label tag is in its
positive-synonym set, and no row otherwise — independent of the
ingredients, so a record labelled en:vegan keeps its vegan edge even when
its ingredients conflict with vegan (see the witness). -/
theorem claim_c6_suitability (st : GenState) (r : Record) (code d : Str)
    (hc : validCode r.code = some code) :
    countRow (processRecord st r).1 (Row.rel rSuitable code lProduct d lDietPref)
      = if ∃ p ∈ DIETARY_PREFERENCES_MAP, p.1 = d
            ∧ ∃ t ∈ product_dietary_labels r.labels_tags, t ∈ p.2
        then 1 else 0 := by
  have hrows := @processRecord_valid_rows st r code hc
  rw [hrows, countRow_cons, countRow_append, countRow_append, countRow_append]
  have hA : countRow (ingLoop code st.written_ingredients
      (parse_ingredients_from_text (chosenIngredientsText r))).1
      (Row.rel rSuitable code lProduct d lDietPref) = 0 := by
    refine countRow_ingLoop_eq_zero ?_
    intro i _
    refine ⟨by simp, ?_, ?_, ?_⟩
    · intro heq
      have h' : rHasIngredient = rSuitable := by injection heq
      exact absurd h' (by decide)
    · intro x heq
      have h' : rIsAllergen = rSuitable := by injection heq
      exact absurd h' (by decide)
    · intro x heq
      have h' : rConflicts = rSuitable := by injection heq
      exact absurd h' (by decide)
  have hB : countRow (proxyLoop code (parse_ingredients_from_text (chosenIngredientsText r))
      (ingLoop code st.written_ingredients
        (parse_ingredients_from_text (chosenIngredientsText r))).2
      (explicit_product_allergens r.allergens_tags)).1
      (Row.rel rSuitable code lProduct d lDietPref) = 0 := by
    refine countRow_proxyLoop_eq_zero ?_
    intro b _ _
    refine ⟨by simp, ?_, ?_⟩
    · intro heq
      have h' : rHasIngredient = rSuitable := by injection heq
      exact absurd h' (by decide)
    · intro heq
      have h' : rIsAllergen = rSuitable := by injection heq
      exact absurd h' (by decide)
  have hC : countRow ((processed_traces_allergens r.traces_tags).map fun x =>
      Row.rel rMayContain code lProduct x lAllergen)
      (Row.rel rSuitable code lProduct d lDietPref) = 0 := by
    refine countRow_map_ne ?_
    intro x heq
    have h' : rMayContain = rSuitable := by injection heq
    exact absurd h' (by decide)
  have hinj : ∀ x y : Str,
      (fun x => Row.rel rSuitable code lProduct x lDietPref) x
        = (fun x => Row.rel rSuitable code lProduct x lDietPref) y → x = y := by
    intro x y heq
    injection heq
  have hD := countRow_map_inj
    (l := suitable_diet_prefs (product_dietary_labels r.labels_tags)) hinj d
  have hiff : (d ∈ suitable_diet_prefs (product_dietary_labels r.labels_tags)) ↔
      (∃ p ∈ DIETARY_PREFERENCES_MAP, p.1 = d
        ∧ ∃ t ∈ product_dietary_labels r.labels_tags, t ∈ p.2) := by
    rw [mem_suitable_iff]
    constructor
    · rintro ⟨p, hp, hpd, hpa⟩
      rw [List.any_eq_true] at hpa
      obtain ⟨k, hk, hk2⟩ := hpa
      simp only [decide_eq_true_eq] at hk2
      exact ⟨p, hp, hpd, k, hk2, hk⟩
    · rintro ⟨p, hp, hpd, t, ht, ht2⟩
      refine ⟨p, hp, hpd, ?_⟩
      rw [List.any_eq_true]
      exact ⟨t, ht2, by simpa using ht⟩
  have hprod : (Row.node code (productDisplayName r code) lProduct
      = Row.rel rSuitable code lProduct d lDietPref) = False := by simp
  rw [hA, hB, hC, hD, countStr_eq_ind (nodup_suitable _)]
  rw [if_congr hiff rfl rfl]
  simp only [hprod, if_false]
  omega

/-- Claim C6, witness: the record labelled en:vegan whose only ingredient
is milk (which conflicts with vegan) still receives exactly one
IS_SUITABLE_FOR row to vegan, showing suitability is label-derived only. -/
theorem claim_c6_witness :
    countRow (processRecord initState recVegan).1
        (Row.rel rSuitable ("123".toList) lProduct ("vegan".toList) lDietPref) = 1 :=
  (claim_c6_suitability initState recVegan ("123".toList) ("vegan".toList)
    (by decide)).trans (by decide)

lemma countRow_eq_one_mem {rows : List Row} {t : Row} (h : countRow rows t = 1) :
    t ∈ rows :=
  countRow_pos_mem (by omega)

lemma colon_mem_milk_proxy (code : Str) : ':' ∈ proxyNameFor ("en:milk".toList) code := by
  unfold proxyNameFor
  exact List.mem_append.mpr (Or.inl (List.mem_append.mpr (Or.inl (by decide))))

/-- Claim C5: a valid record carrying the explicit allergen tag en:milk
whose parsed ingredients match no pattern mapping to en:milk gets a proxy
Ingredient node `en:milk_source_for_<code>` (fresh in the ledger), a
HAS_INGREDIENT edge to it and an IS_ALLERGEN edge from it to en:milk;
a valid record with the same tag whose parsed ingredients contain "cheese"
gets no proxy node and no proxy edges for en:milk. -/
theorem claim_c5_proxy_synthesis :
    (∀ (st : GenState) (r : Record) (code : Str),
      validCode r.code = some code →
      "en:milk".toList ∈ explicit_product_allergens r.allergens_tags →
      (∀ ing ∈ parse_ingredients_from_text (chosenIngredientsText r),
        ∀ p ∈ INGREDIENT_TO_ALLERGEN_MAP, p.2 = "en:milk".toList →
          patMatches p.1 ing = false) →
      proxyNameFor ("en:milk".toList) code ∉ st.written_ingredients →
      (Row.node (proxyNameFor ("en:milk".toList) code) [] lIngredient
          ∈ (processRecord st r).1
       ∧ Row.rel rHasIngredient code lProduct
           (proxyNameFor ("en:milk".toList) code) lIngredient ∈ (processRecord st r).1
       ∧ Row.rel rIsAllergen (proxyNameFor ("en:milk".toList) code) lIngredient
           ("en:milk".toList) lAllergen ∈ (processRecord st r).1))
    ∧ (∀ (st : GenState) (r : Record) (code : Str),
      validCode r.code = some code →
      "en:milk".toList ∈ explicit_product_allergens r.allergens_tags →
      "cheese".toList ∈ parse_ingredients_from_text (chosenIngredientsText r) →
      countNode (processRecord st r).1 lIngredient
          (proxyNameFor ("en:milk".toList) code) = 0
      ∧ countRow (processRecord st r).1
          (Row.rel rHasIngredient code lProduct
            (proxyNameFor ("en:milk".toList) code) lIngredient) = 0
      ∧ countRow (processRecord st r).1
          (Row.rel rIsAllergen (proxyNameFor ("en:milk".toList) code) lIngredient
            ("en:milk".toList) lAllergen) = 0) := by
  constructor
  · intro st r code hc hmilk hno hw
    have hrows := @processRecord_valid_rows st r code hc
    have hexp : explainedBy (parse_ingredients_from_text (chosenIngredientsText r))
        ("en:milk".toList) = false := by
      unfold explainedBy
      rw [List.any_eq_false]
      intro ing hing
      rw [Bool.not_eq_true, List.any_eq_false]
      intro p hp
      rw [Bool.not_eq_true]
      cases hpm : patMatches p.1 ing
      · rw [Bool.false_and]
      · by_cases hpq : p.2 = "en:milk".toList
        · rw [hno ing hing p hp hpq] at hpm
          simp at hpm
        · rw [Bool.true_and]
          exact decide_eq_false hpq
    have hnotw1 : proxyNameFor ("en:milk".toList) code
        ∉ (ingLoop code st.written_ingredients
            (parse_ingredients_from_text (chosenIngredientsText r))).2 := by
      intro hmm
      rcases ingLoop_written_mem _ _ _ hmm with h1 | h2
      · exact hw h1
      · exact parse_no_colon h2 (colon_mem_milk_proxy code)
    have hnd := nodup_explicit r.allergens_tags
    refine ⟨?_, ?_, ?_⟩
    · have hmem := @proxyLoop_node_mem code ("en:milk".toList)
        (parse_ingredients_from_text (chosenIngredientsText r)) hexp
        (explicit_product_allergens r.allergens_tags) _ hmilk hnotw1
      rw [hrows]
      exact List.mem_cons.mpr (Or.inr (List.mem_append.mpr (Or.inr
        (List.mem_append.mpr (Or.inl hmem)))))
    · have hcount := @proxyLoop_countRow_has code ("en:milk".toList)
        (parse_ingredients_from_text (chosenIngredientsText r))
        (explicit_product_allergens r.allergens_tags)
        (ingLoop code st.written_ingredients
          (parse_ingredients_from_text (chosenIngredientsText r))).2 hnd
      rw [if_pos ⟨hmilk, hexp⟩] at hcount
      have hmem := countRow_eq_one_mem hcount
      rw [hrows]
      exact List.mem_cons.mpr (Or.inr (List.mem_append.mpr (Or.inr
        (List.mem_append.mpr (Or.inl hmem)))))
    · have hcount := @proxyLoop_countRow_isa code ("en:milk".toList)
        (parse_ingredients_from_text (chosenIngredientsText r))
        (explicit_product_allergens r.allergens_tags)
        (ingLoop code st.written_ingredients
          (parse_ingredients_from_text (chosenIngredientsText r))).2 hnd
      rw [if_pos ⟨hmilk, hexp⟩] at hcount
      have hmem := countRow_eq_one_mem hcount
      rw [hrows]
      exact List.mem_cons.mpr (Or.inr (List.mem_append.mpr (Or.inr
        (List.mem_append.mpr (Or.inl hmem)))))
  · intro st r code hc _ hcheese
    have hrows := @processRecord_valid_rows st r code hc
    have hexpT : explainedBy (parse_ingredients_from_text (chosenIngredientsText r))
        ("en:milk".toList) = true := by
      unfold explainedBy
      rw [List.any_eq_true]
      exact ⟨"cheese".toList, hcheese, by decide⟩
    have hnd := nodup_explicit r.allergens_tags
    refine ⟨?_, ?_, ?_⟩
    · rw [hrows, countNode_cons, countNode_append, countNode_append, countNode_append]
      have hA : countNode (ingLoop code st.written_ingredients
          (parse_ingredients_from_text (chosenIngredientsText r))).1 lIngredient
          (proxyNameFor ("en:milk".toList) code) = 0 := by
        refine countNode_eq_zero ?_
        intro i n lb hmem ⟨hid, hlb⟩
        obtain ⟨i2, hi2, hshape⟩ := ingLoop_rows_mem _ _ _ hmem
        rcases hshape with heqn | heqn | ⟨x, heqn⟩ | ⟨x, heqn⟩ <;> try simp at heqn
        all_goals {
          obtain ⟨h1, _, _⟩ := heqn
          exact parse_no_colon hi2 (h1 ▸ hid ▸ colon_mem_milk_proxy code) }
      have hB : countNode (proxyLoop code
          (parse_ingredients_from_text (chosenIngredientsText r))
          (ingLoop code st.written_ingredients
            (parse_ingredients_from_text (chosenIngredientsText r))).2
          (explicit_product_allergens r.allergens_tags)).1 lIngredient
          (proxyNameFor ("en:milk".toList) code) = 0 := by
        refine countNode_eq_zero ?_
        intro i n lb hmem ⟨hid, hlb⟩
        obtain ⟨b, hb, hexpb, hshape⟩ := proxyLoop_rows_mem _ _ _ hmem
        rcases hshape with heqn | heqn | heqn <;> try simp at heqn
        obtain ⟨h1, _, _⟩ := heqn
        have hbm : b = "en:milk".toList := proxyName_inj (h1 ▸ hid)
        rw [hbm] at hexpb
        rw [hexpb] at hexpT
        cases hexpT
      have hC : countNode ((processed_traces_allergens r.traces_tags).map fun x =>
          Row.rel rMayContain code lProduct x lAllergen) lIngredient
          (proxyNameFor ("en:milk".toList) code) = 0 := by
        refine countNode_eq_zero ?_
        intro i n lb hmem _
        obtain ⟨x, _, hx⟩ := List.mem_map.mp hmem
        simp at hx
      have hD : countNode ((suitable_diet_prefs
          (product_dietary_labels r.labels_tags)).map fun x =>
          Row.rel rSuitable code lProduct x lDietPref) lIngredient
          (proxyNameFor ("en:milk".toList) code) = 0 := by
        refine countNode_eq_zero ?_
        intro i n lb hmem _
        obtain ⟨x, _, hx⟩ := List.mem_map.mp hmem
        simp at hx
      rw [hA, hB, hC, hD]
      have hprod : (if code = proxyNameFor ("en:milk".toList) code
          ∧ lProduct = lIngredient then 1 else 0) = 0 := by
        rw [if_neg]
        rintro ⟨_, h2⟩
        exact absurd h2 (by decide)
      simp only [hprod]
    · rw [hrows, countRow_cons, countRow_append, countRow_append, countRow_append]
      have hA : countRow (ingLoop code st.written_ingredients
          (parse_ingredients_from_text (chosenIngredientsText r))).1
          (Row.rel rHasIngredient code lProduct
            (proxyNameFor ("en:milk".toList) code) lIngredient) = 0 := by
        refine countRow_ingLoop_eq_zero ?_
        intro i hi
        refine ⟨by simp, ?_, ?_, ?_⟩
        · intro heq
          have h' : i = proxyNameFor ("en:milk".toList) code := by injection heq
          exact parse_no_colon hi (h' ▸ colon_mem_milk_proxy code)
        · intro x heq
          have h' : rIsAllergen = rHasIngredient := by injection heq
          exact absurd h' (by decide)
        · intro x heq
          have h' : rConflicts = rHasIngredient := by injection heq
          exact absurd h' (by decide)
      have hB : countRow (proxyLoop code
          (parse_ingredients_from_text (chosenIngredientsText r))
          (ingLoop code st.written_ingredients
            (parse_ingredients_from_text (chosenIngredientsText r))).2
          (explicit_product_allergens r.allergens_tags)).1
          (Row.rel rHasIngredient code lProduct
            (proxyNameFor ("en:milk".toList) code) lIngredient) = 0 := by
        rw [proxyLoop_countRow_has _ _ hnd]
        rw [if_neg]
        rintro ⟨_, h2⟩
        rw [hexpT] at h2
        cases h2
      have hC : countRow ((processed_traces_allergens r.traces_tags).map fun x =>
          Row.rel rMayContain code lProduct x lAllergen)
          (Row.rel rHasIngredient code lProduct
            (proxyNameFor ("en:milk".toList) code) lIngredient) = 0 := by
        refine countRow_map_ne ?_
        intro x heq
        have h' : rMayContain = rHasIngredient := by injection heq
        exact absurd h' (by decide)
      have hD : countRow ((suitable_diet_prefs
          (product_dietary_labels r.labels_tags)).map fun x =>
          Row.rel rSuitable code lProduct x lDietPref)
          (Row.rel rHasIngredient code lProduct
            (proxyNameFor ("en:milk".toList) code) lIngredient) = 0 := by
        refine countRow_map_ne ?_
        intro x heq
        have h' : rSuitable = rHasIngredient := by injection heq
        exact absurd h' (by decide)
      have hprod : (Row.node code (productDisplayName r code) lProduct
          = Row.rel rHasIngredient code lProduct
              (proxyNameFor ("en:milk".toList) code) lIngredient) = False := by simp
      rw [hA, hB, hC, hD]
      simp only [hprod, if_false]
    · rw [hrows, countRow_cons, countRow_append, countRow_append, countRow_append]
      have hA : countRow (ingLoop code st.written_ingredients
          (parse_ingredients_from_text (chosenIngredientsText r))).1
          (Row.rel rIsAllergen (proxyNameFor ("en:milk".toList) code) lIngredient
            ("en:milk".toList) lAllergen) = 0 := by
        refine countRow_ingLoop_eq_zero ?_
        intro i hi
        refine ⟨by simp, ?_, ?_, ?_⟩
        · intro heq
          have h' : rHasIngredient = rIsAllergen := by injection heq
          exact absurd h' (by decide)
        · intro x heq
          have h' : i = proxyNameFor ("en:milk".toList) code := by injection heq
          exact parse_no_colon hi (h' ▸ colon_mem_milk_proxy code)
        · intro x heq
          have h' : rConflicts = rIsAllergen := by injection heq
          exact absurd h' (by decide)
      have hB : countRow (proxyLoop code
          (parse_ingredients_from_text (chosenIngredientsText r))
          (ingLoop code st.written_ingredients
            (parse_ingredients_from_text (chosenIngredientsText r))).2
          (explicit_product_allergens r.allergens_tags)).1
          (Row.rel rIsAllergen (proxyNameFor ("en:milk".toList) code) lIngredient
            ("en:milk".toList) lAllergen) = 0 := by
        rw [proxyLoop_countRow_isa _ _ hnd]
        rw [if_neg]
        rintro ⟨_, h2⟩
        rw [hexpT] at h2
        cases h2
      have hC : countRow ((processed_traces_allergens r.traces_tags).map fun x =>
          Row.rel rMayContain code lProduct x lAllergen)
          (Row.rel rIsAllergen (proxyNameFor ("en:milk".toList) code) lIngredient
            ("en:milk".toList) lAllergen) = 0 := by
        refine countRow_map_ne ?_
        intro x heq
        have h' : rMayContain = rIsAllergen := by injection heq
        exact absurd h' (by decide)
      have hD : countRow ((suitable_diet_prefs
          (product_dietary_labels r.labels_tags)).map fun x =>
          Row.rel rSuitable code lProduct x lDietPref)
          (Row.rel rIsAllergen (proxyNameFor ("en:milk".toList) code) lIngredient
            ("en:milk".toList) lAllergen) = 0 := by
        refine countRow_map_ne ?_
        intro x heq
        have h' : rSuitable = rIsAllergen := by injection heq
        exact absurd h' (by decide)
      have hprod : (Row.node code (productDisplayName r code) lProduct
          = Row.rel rIsAllergen (proxyNameFor ("en:milk".toList) code) lIngredient
              ("en:milk".toList) lAllergen) = False := by simp
      rw [hA, hB, hC, hD]
      simp only [hprod, if_false]

/-- Claim C5, witness: both halves at concrete records — a water-only
record with the explicit milk tag gets the proxy node and edges; the same
tag with the ingredient cheese yields no proxy rows. -/
theorem claim_c5_witness :
    (Row.node (proxyNameFor ("en:milk".toList) ("77".toList)) [] lIngredient
        ∈ (processRecord initState recProxy).1
     ∧ Row.rel rHasIngredient ("77".toList) lProduct
         (proxyNameFor ("en:milk".toList) ("77".toList)) lIngredient
         ∈ (processRecord initState recProxy).1
     ∧ Row.rel rIsAllergen (proxyNameFor ("en:milk".toList) ("77".toList)) lIngredient
         ("en:milk".toList) lAllergen ∈ (processRecord initState recProxy).1)
    ∧ (countNode (processRecord initState recCheese).1 lIngredient
         (proxyNameFor ("en:milk".toList) ("77".toList)) = 0
       ∧ countRow (processRecord initState recCheese).1
           (Row.rel rHasIngredient ("77".toList) lProduct
             (proxyNameFor ("en:milk".toList) ("77".toList)) lIngredient) = 0
       ∧ countRow (processRecord initState recCheese).1
           (Row.rel rIsAllergen (proxyNameFor ("en:milk".toList) ("77".toList)) lIngredient
             ("en:milk".toList) lAllergen) = 0) :=
  ⟨claim_c5_proxy_synthesis.1 initState recProxy ("77".toList)
      (by decide) (by decide) (by decide) (by decide),
   claim_c5_proxy_synthesis.2 initState recCheese ("77".toList)
      (by decide) (by decide) (by decide)⟩

lemma countNode_nil (lab id : Str) : countNode [] lab id = 0 := rfl

lemma countNode_cons_rel (t f fl x tl : Str) (l : List Row) (lab id : Str) :
    countNode (Row.rel t f fl x tl :: l) lab id = countNode l lab id := by
  unfold countNode
  rw [List.countP_cons]
  simp

lemma countNode_singleton_node (i n lb lab id : Str) :
    countNode [Row.node i n lb] lab id = if i = id ∧ lb = lab then 1 else 0 := by
  rw [countNode_cons]
  simp [countNode]

lemma countNode_isAllergenRows (ing lab id : Str) :
    countNode (isAllergenRowsFor ing) lab id = 0 := by
  refine countNode_eq_zero ?_
  intro i n lb hmem _
  obtain ⟨p, _, _, hr⟩ := mem_isAllergenRows hmem
  simp at hr

lemma countNode_conflictRows (ing lab id : Str) :
    countNode (conflictRowsFor ing) lab id = 0 := by
  refine countNode_eq_zero ?_
  intro i n lb hmem _
  obtain ⟨p, _, _, hr⟩ := mem_conflictRows hmem
  simp at hr

lemma countNode_map_relrows (l : List Str) (t f fl tl lab id : Str) :
    countNode (l.map fun x => Row.rel t f fl x tl) lab id = 0 := by
  refine countNode_eq_zero ?_
  intro i n lb hmem _
  obtain ⟨x, _, hx⟩ := List.mem_map.mp hmem
  simp at hx

lemma ingLoop_node_eq {code id : Str} :
    ∀ (ings written : List Str),
      countNode (ingLoop code written ings).1 lIngredient id
          + (if id ∈ written then 1 else 0)
        = if id ∈ (ingLoop code written ings).2 then 1 else 0 := by
  intro ings
  induction ings with
  | nil => intro written; simp [ingLoop, countNode]
  | cons i0 rest ih =>
    intro written
    rw [ingLoop_cons]
    simp only []
    rw [countNode_append, countNode_append, countNode_cons_rel, countNode_append,
      countNode_isAllergenRows, countNode_conflictRows]
    by_cases hw : i0 ∈ written
    · simp only [hw, if_true]
      have hih := ih written
      have hnodes : countNode ([] : List Row) lIngredient id = 0 := rfl
      rw [hnodes]
      omega
    · simp only [hw, if_false]
      rw [countNode_singleton_node]
      have hih := ih (i0 :: written)
      have haddend : (if i0 = id ∧ lIngredient = lIngredient then 1 else 0)
          = if i0 = id then 1 else 0 := by simp
      rw [haddend]
      by_cases hid : i0 = id
      · have hmem1 : id ∈ i0 :: written := by simp [hid]
        have hw2 : id ∉ written := by
          intro hmm
          exact hw (by rw [hid]; exact hmm)
        rw [if_pos hmem1] at hih
        rw [if_pos hid, if_neg hw2]
        omega
      · have hmemiff : (id ∈ i0 :: written) ↔ (id ∈ written) := by
          constructor
          · intro h
            rcases List.mem_cons.mp h with h1 | h1
            · exact absurd h1.symm hid
            · exact h1
          · exact fun h => List.mem_cons_of_mem _ h
        rw [if_congr hmemiff rfl rfl] at hih
        rw [if_neg hid]
        omega

lemma proxyLoop_node_eq {code id : Str} {ings : List Str} :
    ∀ (expl written : List Str),
      countNode (proxyLoop code ings written expl).1 lIngredient id
          + (if id ∈ written then 1 else 0)
        = if id ∈ (proxyLoop code ings written expl).2 then 1 else 0 := by
  intro expl
  induction expl with
  | nil => intro written; simp [proxyLoop, countNode]
  | cons a0 rest ih =>
    intro written
    by_cases he : explainedBy ings a0 = true
    · rw [proxyLoop_cons_explained written rest he]
      exact ih written
    · rw [proxyLoop_cons_new written rest (by simpa using he)]
      simp only []
      rw [countNode_append, countNode_append, countNode_cons_rel, countNode_cons_rel,
        countNode_nil]
      by_cases hw : proxyNameFor a0 code ∈ written
      · simp only [hw, if_true]
        have hih := ih written
        have hnodes : countNode ([] : List Row) lIngredient id = 0 := rfl
        rw [hnodes]
        omega
      · simp only [hw, if_false]
        rw [countNode_singleton_node]
        have hih := ih (proxyNameFor a0 code :: written)
        have haddend : (if proxyNameFor a0 code = id ∧ lIngredient = lIngredient then 1 else 0)
            = if proxyNameFor a0 code = id then 1 else 0 := by simp
        rw [haddend]
        by_cases hid : proxyNameFor a0 code = id
        · have hmem1 : id ∈ proxyNameFor a0 code :: written := by simp [hid]
          have hw2 : id ∉ written := by
            intro hmm
            exact hw (by rw [hid]; exact hmm)
          rw [if_pos hmem1] at hih
          rw [if_pos hid, if_neg hw2]
          omega
        · have hmemiff : (id ∈ proxyNameFor a0 code :: written) ↔ (id ∈ written) := by
            constructor
            · intro h
              rcases List.mem_cons.mp h with h1 | h1
              · exact absurd h1.symm hid
              · exact h1
            · exact fun h => List.mem_cons_of_mem _ h
          rw [if_congr hmemiff rfl rfl] at hih
          rw [if_neg hid]
          omega

lemma processRecord_valid_state {st : GenState} {r : Record} {code : Str}
    (h : validCode r.code = some code) :
    (processRecord st r).2.written_ingredients
      = (proxyLoop code (parse_ingredients_from_text (chosenIngredientsText r))
          (ingLoop code st.written_ingredients
            (parse_ingredients_from_text (chosenIngredientsText r))).2
          (explicit_product_allergens r.allergens_tags)).2 := by
  simp [processRecord, h]

lemma ingLoop_countNode_other {code id lab : Str} (h : lab ≠ lIngredient)
    (ings written : List Str) :
    countNode (ingLoop code written ings).1 lab id = 0 := by
  refine countNode_eq_zero ?_
  intro i n lb hmem ⟨_, hlb⟩
  obtain ⟨i2, _, hshape⟩ := ingLoop_rows_mem ings written _ hmem
  rcases hshape with heqn | heqn | ⟨x, heqn⟩ | ⟨x, heqn⟩ <;> try simp at heqn
  obtain ⟨_, _, h3⟩ := heqn
  exact h (by rw [← hlb]; exact h3)

lemma proxyLoop_countNode_other {code id lab : Str} {ings : List Str}
    (h : lab ≠ lIngredient) (expl written : List Str) :
    countNode (proxyLoop code ings written expl).1 lab id = 0 := by
  refine countNode_eq_zero ?_
  intro i n lb hmem ⟨_, hlb⟩
  obtain ⟨b, _, _, hshape⟩ := proxyLoop_rows_mem expl written _ hmem
  rcases hshape with heqn | heqn | heqn <;> try simp at heqn
  obtain ⟨_, _, h3⟩ := heqn
  exact h (by rw [← hlb]; exact h3)

lemma processRecord_node_eq (st : GenState) (r : Record) (id : Str) :
    countNode (processRecord st r).1 lIngredient id
        + (if id ∈ st.written_ingredients then 1 else 0)
      = if id ∈ (processRecord st r).2.written_ingredients then 1 else 0 := by
  rcases hv : validCode r.code with _ | code
  · simp [processRecord, hv, countNode]
  · rw [processRecord_valid_rows hv, processRecord_valid_state hv]
    rw [countNode_cons, countNode_append, countNode_append, countNode_append,
      countNode_map_relrows, countNode_map_relrows]
    have hprod : (match Row.node code (productDisplayName r code) lProduct with
        | Row.node i _ lb => if i = id ∧ lb = lIngredient then 1 else 0
        | _ => 0) = 0 := by
      simp only []
      rw [if_neg]
      rintro ⟨_, h2⟩
      exact absurd h2 (by decide)
    rw [hprod]
    have h1 := @ingLoop_node_eq code id
      (parse_ingredients_from_text (chosenIngredientsText r)) st.written_ingredients
    have h2 := @proxyLoop_node_eq code id
      (parse_ingredients_from_text (chosenIngredientsText r))
      (explicit_product_allergens r.allergens_tags)
      (ingLoop code st.written_ingredients
        (parse_ingredients_from_text (chosenIngredientsText r))).2
    omega

lemma processRecord_product (st : GenState) (r : Record) (id : Str) :
    countNode (processRecord st r).1 lProduct id
      = if validCode r.code = some id then 1 else 0 := by
  rcases hv : validCode r.code with _ | code
  · simp [processRecord, hv, countNode]
  · rw [processRecord_valid_rows hv]
    rw [countNode_cons, countNode_append, countNode_append, countNode_append,
      countNode_map_relrows, countNode_map_relrows,
      ingLoop_countNode_other (by decide), proxyLoop_countNode_other (by decide)]
    have hprod : (match Row.node code (productDisplayName r code) lProduct with
        | Row.node i _ lb => if i = id ∧ lb = lProduct then 1 else 0
        | _ => 0) = if code = id then 1 else 0 := by
      simp only []
      by_cases h1 : code = id <;> simp [h1]
    rw [hprod]
    have hiff : (some code = some id) ↔ (code = id) := by simp
    rw [if_congr hiff rfl rfl]
    omega

lemma processRecord_other (st : GenState) (r : Record) (lab id : Str)
    (h1 : lab ≠ lProduct) (h2 : lab ≠ lIngredient) :
    countNode (processRecord st r).1 lab id = 0 := by
  rcases hv : validCode r.code with _ | code
  · simp [processRecord, hv, countNode]
  · rw [processRecord_valid_rows hv]
    rw [countNode_cons, countNode_append, countNode_append, countNode_append,
      countNode_map_relrows, countNode_map_relrows,
      ingLoop_countNode_other h2, proxyLoop_countNode_other h2]
    have hprod : (match Row.node code (productDisplayName r code) lProduct with
        | Row.node i _ lb => if i = id ∧ lb = lab then 1 else 0
        | _ => 0) = 0 := by
      simp only []
      rw [if_neg]
      rintro ⟨_, h3⟩
      exact h1 h3.symm
    rw [hprod]

lemma runLoop_node_eq (id : Str) :
    ∀ (records : List Record) (st : GenState),
      countNode (runLoop st records).1 lIngredient id
          + (if id ∈ st.written_ingredients then 1 else 0)
        = if id ∈ (runLoop st records).2.written_ingredients then 1 else 0 := by
  intro records
  induction records with
  | nil => intro st; simp [runLoop, countNode]
  | cons r rest ih =>
    intro st
    simp only [runLoop]
    rw [countNode_append]
    have h1 := processRecord_node_eq st r id
    have h2 := ih (processRecord st r).2
    omega

lemma runLoop_product (id : Str) :
    ∀ (records : List Record) (st : GenState),
      countNode (runLoop st records).1 lProduct id
        = records.countP (fun r => decide (validCode r.code = some id)) := by
  intro records
  induction records with
  | nil => intro st; simp [runLoop, countNode]
  | cons r rest ih =>
    intro st
    simp only [runLoop]
    rw [countNode_append, List.countP_cons, processRecord_product, ih]
    by_cases h1 : validCode r.code = some id <;> simp [h1] <;> omega

lemma runLoop_other (lab id : Str) (h1 : lab ≠ lProduct) (h2 : lab ≠ lIngredient) :
    ∀ (records : List Record) (st : GenState),
      countNode (runLoop st records).1 lab id = 0 := by
  intro records
  induction records with
  | nil => intro st; simp [runLoop, countNode]
  | cons r rest ih =>
    intro st
    simp only [runLoop]
    rw [countNode_append, processRecord_other st r lab id h1 h2, ih]

lemma countNode_map_node (ids : List Str) (L lab id : Str) :
    countNode (ids.map fun a => Row.node a [] L) lab id
      = if L = lab then countStr ids id else 0 := by
  induction ids with
  | nil => simp [countNode, countStr]
  | cons a t ih =>
    simp only [List.map_cons]
    rw [countNode_cons, ih]
    unfold countStr
    rw [List.countP_cons]
    simp only []
    by_cases hL : L = lab
    · by_cases ha : a = id
      · simp [hL, ha]
      · simp [hL, ha]
    · simp [hL]

lemma countNode_cons_header (l : List Row) (lab id : Str) :
    countNode (Row.header :: l) lab id = countNode l lab id := by
  unfold countNode
  rw [List.countP_cons]
  simp

/-- Claim C4: across one whole run, every node kind other than Product has
at most one Node row per identifier (each referenced pair appears exactly
once, first write wins), while Product node rows are written once per
valid record, so they repeat exactly when the same code appears in several
input records. -/
theorem claim_c4_node_dedup (records : List Record) (lab id : Str) :
    (lab ≠ lProduct → countNode (runRows records) lab id ≤ 1)
    ∧ countNode (runRows records) lProduct id
        = records.countP (fun r => decide (validCode r.code = some id)) := by
  by_cases hrec : records.isEmpty = true
  · have h0 : records = [] := by
      cases records
      · rfl
      · simp at hrec
    subst h0
    simp [runRows, countNode]
  · have hrw : runRows records
        = Row.header :: (preambleRows ++ (runLoop initState records).1) := by
      simp [runRows, hrec]
    have hpre : ∀ lab2 id2, countNode preambleRows lab2 id2
        = (if lAllergen = lab2 then countStr KNOWN_ALLERGENS id2 else 0)
          + (if lDietPref = lab2 then
              countStr (DIETARY_PREFERENCES_MAP.map Prod.fst) id2 else 0) := by
      intro lab2 id2
      unfold preambleRows
      rw [countNode_append, countNode_map_node]
      have hmm : DIETARY_PREFERENCES_MAP.map (fun d => Row.node d.1 [] lDietPref)
          = (DIETARY_PREFERENCES_MAP.map Prod.fst).map (fun a => Row.node a [] lDietPref) := by
        rw [List.map_map]
        rfl
      rw [hmm, countNode_map_node]
    constructor
    · intro hlab
      rw [hrw, countNode_cons_header, countNode_append, hpre]
      by_cases h1 : lab = lIngredient
      · subst h1
        rw [if_neg (by decide), if_neg (by decide)]
        have hbody := runLoop_node_eq id records initState
        have hinit : (if id ∈ initState.written_ingredients then 1 else 0) = 0 := by
          simp [initState]
        rw [hinit] at hbody
        by_cases hfin : id ∈ (runLoop initState records).2.written_ingredients
        · rw [if_pos hfin] at hbody
          omega
        · rw [if_neg hfin] at hbody
          omega
      · by_cases h2 : lab = lAllergen
        · subst h2
          rw [if_pos rfl, if_neg (by decide),
            runLoop_other lAllergen id hlab h1 records initState]
          have := countStr_le_one_of_nodup
            (show KNOWN_ALLERGENS.Nodup by decide) id
          omega
        · by_cases h3 : lab = lDietPref
          · subst h3
            rw [if_neg (by decide), if_pos rfl,
              runLoop_other lDietPref id hlab h1 records initState]
            have := countStr_le_one_of_nodup
              (show (DIETARY_PREFERENCES_MAP.map Prod.fst).Nodup by decide) id
            omega
          · rw [if_neg (fun h => h2 h.symm), if_neg (fun h => h3 h.symm),
              runLoop_other lab id hlab h1 records initState]
            omega
    · rw [hrw, countNode_cons_header, countNode_append, hpre]
      rw [if_neg (by decide), if_neg (by decide), runLoop_product]
      omega

/-- Claim C4, witness: a run over the same record twice writes the shared
ingredient node once and the Product node twice (once per record). -/
theorem claim_c4_witness :
    countNode (runRows [recWheatFlour, recWheatFlour]) lIngredient
        ("wheat flour".toList) ≤ 1
    ∧ countNode (runRows [recWheatFlour, recWheatFlour]) lProduct ("1".toList) = 2 :=
  ⟨(claim_c4_node_dedup [recWheatFlour, recWheatFlour] lIngredient
      ("wheat flour".toList)).1 (by decide),
   ((claim_c4_node_dedup [recWheatFlour, recWheatFlour] lProduct
      ("1".toList)).2).trans (by decide)⟩
